import Mathlib

/-!
# Proof-of-work difficulty rules of LitecoinCash (`src/pow.cpp`)

A shallow embedding of `pow.cpp` and statements about it.

Conventions of the embedding.

* `arith_uint256` values are natural numbers below `2 ^ 256`; every operation
  that can leave that range reduces modulo `2 ^ 256`.
* `int`, `int64_t` values are integers; `/` and `%` on them are the truncating
  C++ operations (`Int.tdiv`, `Int.tmod`). Signed overflow is undefined in C++
  and is not modelled: signed arithmetic is exact.
* A signed `/` or `%` by zero stops the program. `pow.cpp` divides by
  `nPowTargetSpacing` in every call of `DifficultyAdjustmentInterval()` and by the
  interval in the `%` of line 36; `GetNextWorkRequired` and
  `GetNextCashWorkRequired` fail with `divByZero` there when the divisor is zero.
* `uint32_t` fields (`nTime`, `nBits`) are natural numbers.
* A `const CBlockIndex*` is a list of block records: the empty list is the null
  pointer, the head is the record pointed to and the tail is its `pprev`.
* A function that can dereference a null pointer, fail an `assert` or raise the
  division-by-zero error of `arith_uint256` returns `Except PowError _`.
-/

namespace Pow

/-! ## Data model -/

/-- Ways in which a call can fail to return. -/
inductive PowError where
  /-- A field of a null `CBlockIndex*` is read. -/
  | nullDeref
  /-- An `assert` does not hold. -/
  | assertFail
  /-- The divisor of a division is zero: an `arith_uint256` division, for which the
  library raises an error, or a signed `/` or `%`, on which the program stops. -/
  | divByZero
  deriving DecidableEq, Repr

/-- The fields of `CBlockIndex` read by `pow.cpp` (the parent link is the tail of
the list that represents a pointer, see `BlockPtr`). -/
structure CBlockIndex where
  /-- Height of the block, a C++ `int`. -/
  nHeight : Int
  /-- Block time, a `uint32_t`. -/
  nTime : Nat
  /-- Compact target of the block, a `uint32_t`. -/
  nBits : Nat
  /-- Cumulative chain work, an `arith_uint256`. -/
  nChainWork : Nat
  deriving DecidableEq, Repr

/-- A `const CBlockIndex*`: `[]` is the null pointer, `b :: prev` points to the
record `b` whose `pprev` is `prev`. -/
abbrev BlockPtr := List CBlockIndex

/-- The field of `CBlockHeader` read by `pow.cpp`. -/
structure CBlockHeader where
  /-- Block time, a `uint32_t`. -/
  nTime : Nat
  deriving DecidableEq, Repr

/-- The fields of `Consensus::Params` read by `pow.cpp`. -/
structure Params where
  /-- Easiest legal target, a `uint256`. -/
  powLimit : Nat
  /-- Target pinned during the fork window, a `uint256`. -/
  powLimitFork : Nat
  /-- Intended seconds between blocks, an `int64_t`. -/
  nPowTargetSpacing : Int
  /-- Length of a retarget period in seconds, an `int64_t`. -/
  nPowTargetTimespan : Int
  /-- Test-network relaxation flag. -/
  fPowAllowMinDifficultyBlocks : Bool
  /-- Flag that disables all adjustment. -/
  fPowNoRetargeting : Bool
  /-- Activation height of the continuous algorithm. -/
  DAAHeight : Int
  /-- First height of the fork window. -/
  LCHHeight : Int
  /-- Length of the fork window. -/
  LCHInitBlockCount : Int
  deriving DecidableEq, Repr

/-- Modelled from the spec: `Consensus::Params::DifficultyAdjustmentInterval` (declared
in `consensus/params.h`, not part of `pow.cpp`), described as
`DifficultyAdjustmentInterval = nPowTargetTimespan / nPowTargetSpacing`, a division of
two `int64_t`. This is the value of the call when `nPowTargetSpacing` is not zero; the
functions that make the call fail when it is zero. -/
def Params.DifficultyAdjustmentInterval (params : Params) : Int :=
  params.nPowTargetTimespan.tdiv params.nPowTargetSpacing

/-- Reading a field through a pointer: `p->field` fails on the null pointer. -/
def deref (p : BlockPtr) : Except PowError CBlockIndex :=
  match p with
  | [] => .error .nullDeref
  | b :: _ => .ok b

/-- The expression `p->pprev`. -/
def pprev (p : BlockPtr) : Except PowError BlockPtr :=
  match p with
  | [] => .error .nullDeref
  | _ :: prev => .ok prev

/-- The method `CBlockIndex::GetBlockTime`, `(int64_t)nTime`. -/
def CBlockIndex.GetBlockTime (b : CBlockIndex) : Int := (b.nTime : Int)

/-- The method `CBlockHeader::GetBlockTime`, `(int64_t)nTime`. -/
def CBlockHeader.GetBlockTime (h : CBlockHeader) : Int := (h.nTime : Int)

/-- Modelled from the spec: `CBlockIndex::GetAncestor` (defined in `chain.cpp`, not part
of `pow.cpp`), the ancestor-at-height lookup: the null pointer when `height` is negative
or above the height of the node, otherwise the node reached by following
`nHeight - height` parent links. -/
def GetAncestor (p : BlockPtr) (height : Int) : Except PowError BlockPtr :=
  (deref p).bind fun b =>
    if height > b.nHeight ∨ height < 0 then .ok []
    else .ok (p.drop (b.nHeight - height).toNat)

/-! ## Integer conversions -/

/-- Conversion of an `int64_t` to `uint64_t`: a negative value wraps around. -/
def toU64 (x : Int) : Nat := if 0 ≤ x then x.toNat else (x + 2 ^ 64).toNat

/-- Conversion of an `int` to `uint32_t`: a negative value wraps around. -/
def toU32 (x : Int) : Nat := if 0 ≤ x then x.toNat else (x + 2 ^ 32).toNat

/-- Conversion of a `uint32_t` to `int`: values from `2 ^ 31` on are negative. -/
def toInt32 (x : Nat) : Int := if x < 2 ^ 31 then (x : Int) else (x : Int) - 2 ^ 32

/-! ## 256-bit arithmetic -/

/-- The modulus `2 ^ 256` of `arith_uint256`. -/
def U256 : Nat := 2 ^ 256

/-- Modelled from the spec: `UintToArith256` (defined in `arith_uint256.cpp`, not part of
`pow.cpp`), the numeric value of a `uint256` interpreted as a 256-bit unsigned integer. -/
def UintToArith256 (x : Nat) : Nat := x % U256

/-- Modelled from the spec: the loop of `arith_uint256::bits` (defined in
`arith_uint256.cpp`, not part of `pow.cpp`), a scan of the bit positions below `pos`,
highest first, for a set bit. -/
def bitsBelow : Nat → Nat → Nat
  | 0, _ => 0
  | pos + 1, x => if x.testBit pos then pos + 1 else bitsBelow pos x

/-- Modelled from the spec: `arith_uint256::bits` (defined in `arith_uint256.cpp`, not
part of `pow.cpp`), the bit length of a 256-bit value: position of the highest set bit
plus one, `0` for zero. -/
def bits (x : Nat) : Nat := bitsBelow 256 x

/-- Modelled from the spec: `arith_uint256::operator<<=`, a left shift within the fixed
256-bit width: bits shifted out at the top are lost. -/
def shl256 (x n : Nat) : Nat := (x <<< n) % U256

/-- Modelled from the spec: `arith_uint256::operator*=` with an integer scalar, a
multiplication with wraparound in the fixed 256-bit width. The scalar is the value of the
`int64_t` argument seen as unsigned. -/
def mulScalar (x : Nat) (s : Int) : Nat := (x * toU64 s) % U256

/-- Modelled from the spec: `arith_uint256::operator/=`; the library raises an error when
the divisor is zero. -/
def div256 (x d : Nat) : Except PowError Nat :=
  if d = 0 then .error .divByZero else .ok (x / d)

/-- Modelled from the spec: `arith_uint256::operator-` (binary), subtraction with
wraparound in the fixed 256-bit width. -/
def sub256 (a b : Nat) : Nat := (a % U256 + (U256 - b % U256)) % U256

/-- Modelled from the spec: `arith_uint256::operator-` (unary), the arithmetic complement
of a value within the 256-bit representation, `2 ^ 256 - x` modulo `2 ^ 256`. -/
def neg256 (x : Nat) : Nat := (U256 - x % U256) % U256

/-! ## Compact target codec -/

/-- Result of decoding a compact target. -/
structure Decoded where
  /-- The decoded 256-bit magnitude. -/
  value : Nat
  /-- The sign flag of the compact form is set on a non-zero mantissa. -/
  fNegative : Bool
  /-- The magnitude does not fit in 256 bits. -/
  fOverflow : Bool
  deriving DecidableEq, Repr

/-- Modelled from the spec: `arith_uint256::SetCompact` (defined in `arith_uint256.cpp`,
not part of `pow.cpp`). The top byte of the 32-bit word is the size `e`, the low three
bytes are the mantissa whose bit 23 is the sign indicator, so the magnitude `m` is the low
23 bits; the value is `m * 256 ^ (e - 3)` when `e > 3` and `m >> (8 * (3 - e))` otherwise,
kept within 256 bits. The flags are reported out of band: negative when the sign bit is
set on a non-zero magnitude, overflow when a non-zero magnitude does not fit in 256 bits
(size above 34, or above 33 with more than one byte of magnitude, or above 32 with more
than two bytes). -/
def SetCompact (nCompact : Nat) : Decoded :=
  let nSize := nCompact >>> 24
  let nWord := nCompact &&& 0x007fffff
  let nWord := if nSize ≤ 3 then nWord >>> (8 * (3 - nSize)) else nWord
  { value := if nSize ≤ 3 then nWord else shl256 nWord (8 * (nSize - 3))
    fNegative := decide (nWord ≠ 0) && decide (nCompact &&& 0x00800000 ≠ 0)
    fOverflow := decide (nWord ≠ 0) &&
      (decide (nSize > 34) || (decide (nWord > 0xff) && decide (nSize > 33)) ||
        (decide (nWord > 0xffff) && decide (nSize > 32))) }

/-- Modelled from the spec: `arith_uint256::GetCompact` (defined in `arith_uint256.cpp`,
not part of `pow.cpp`). The size is the number of significant bytes, the mantissa the
three most significant bytes, truncated; when bit 23 of the mantissa would be set the
mantissa is divided by 256 and the size increased, so that the sign bit stays clear. -/
def GetCompact (x : Nat) : Nat :=
  let nSize := (bits x + 7) / 8
  let nCompact := if nSize ≤ 3 then x <<< (8 * (3 - nSize)) else x >>> (8 * (nSize - 3))
  let nCompact := nCompact % 2 ^ 32
  if nCompact &&& 0x00800000 ≠ 0 then (nCompact >>> 8) ||| ((nSize + 1) <<< 24)
  else nCompact ||| (nSize <<< 24)

/-! ## `pow.cpp` -/

/-- The function `IsDAAEnabled(params, nHeight)` of `pow.cpp`. -/
def IsDAAEnabledAt (params : Params) (nHeight : Int) : Bool :=
  decide (nHeight ≥ params.DAAHeight)

/-- The function `IsDAAEnabled(params, pindexPrev)` of `pow.cpp`. -/
def IsDAAEnabled (params : Params) (pindexPrev : BlockPtr) : Bool :=
  match pindexPrev with
  | [] => false
  | b :: _ => IsDAAEnabledAt params b.nHeight

/-- The function `CheckProofOfWork` of `pow.cpp`. -/
def CheckProofOfWork (hash : Nat) (nBits : Nat) (params : Params) : Bool :=
  let d := SetCompact nBits
  let bnTarget := d.value
  -- Check range
  if d.fNegative || decide (bnTarget = 0) || d.fOverflow ||
      decide (bnTarget > UintToArith256 params.powLimit) then false
  -- Check proof of work matches claimed amount
  else if UintToArith256 hash > bnTarget then false
  else true

/-- The fork-window test `nHeight >= LCHHeight && nHeight <= LCHHeight + LCHInitBlockCount`
that occurs in `GetNextWorkRequired` and in `CalculateNextWorkRequired`. -/
def inForkWindow (params : Params) (nHeight : Int) : Bool :=
  decide (nHeight ≥ params.LCHHeight) &&
    decide (nHeight ≤ params.LCHHeight + params.LCHInitBlockCount)

/-- The "limit adjustment step" of `CalculateNextWorkRequired` (lines 100 to 104): the two
successive `if`s that bound `nActualTimespan`. -/
def limitAdjustmentStep (params : Params) (nActualTimespan : Int) : Int :=
  let nActualTimespan :=
    if nActualTimespan < params.nPowTargetTimespan.tdiv 4 then params.nPowTargetTimespan.tdiv 4
    else nActualTimespan
  if nActualTimespan > params.nPowTargetTimespan * 4 then params.nPowTargetTimespan * 4
  else nActualTimespan

/-- The "retarget" step of `CalculateNextWorkRequired` (lines 112 to 118): the value of
`bnNew` before it is compared with the limit. -/
def retarget (bnOld : Nat) (nActualTimespan nPowTargetTimespan : Int) :
    Except PowError Nat :=
  let bnNew := bnOld
  let fShift := decide (bits bnNew > 235)
  let bnNew := if fShift then bnNew >>> 1 else bnNew
  let bnNew := mulScalar bnNew nActualTimespan
  (div256 bnNew (toU64 nPowTargetTimespan)).bind fun bnNew =>
    .ok (if fShift then shl256 bnNew 1 else bnNew)

/-- The function `CalculateNextWorkRequired` of `pow.cpp`. -/
def CalculateNextWorkRequired (pindexLast : BlockPtr) (nFirstBlockTime : Int)
    (params : Params) : Except PowError Nat :=
  (deref pindexLast).bind fun last =>
    if inForkWindow params last.nHeight then
      .ok (GetCompact (UintToArith256 params.powLimitFork))
    else
      -- Limit adjustment step
      let nActualTimespan := limitAdjustmentStep params (last.GetBlockTime - nFirstBlockTime)
      -- Retarget
      (retarget (SetCompact last.nBits).value nActualTimespan params.nPowTargetTimespan).bind
        fun bnNew =>
          let bnPowLimit := UintToArith256 params.powLimit
          let bnNew := if bnNew > bnPowLimit then bnPowLimit else bnNew
          .ok (GetCompact bnNew)

/-- The function `ComputeTarget` of `pow.cpp`. -/
def ComputeTarget (pindexFirst pindexLast : BlockPtr) (params : Params) :
    Except PowError Nat :=
  (deref pindexLast).bind fun last =>
  (deref pindexFirst).bind fun first =>
    if ¬ (last.nHeight > first.nHeight) then .error .assertFail
    else
      let work := sub256 last.nChainWork first.nChainWork
      let work := mulScalar work params.nPowTargetSpacing
      let nActualTimespan : Int := (last.nTime : Int) - (first.nTime : Int)
      let nActualTimespan :=
        if nActualTimespan > 288 * params.nPowTargetSpacing then
          288 * params.nPowTargetSpacing
        else if nActualTimespan < 72 * params.nPowTargetSpacing then
          72 * params.nPowTargetSpacing
        else nActualTimespan
      (div256 work (toU64 nActualTimespan)).bind fun work =>
        div256 (neg256 work) work

/-- One compare-and-swap of the sorting network of `GetSuitableBlock`:
`if (a->nTime > b->nTime) std::swap(a, b)`. -/
def swapIfLater (a b : BlockPtr) : Except PowError (BlockPtr × BlockPtr) :=
  (deref a).bind fun ra =>
  (deref b).bind fun rb =>
    .ok (if ra.nTime > rb.nTime then (b, a) else (a, b))

/-- The function `GetSuitableBlock` of `pow.cpp`. -/
def GetSuitableBlock (pindex : BlockPtr) : Except PowError BlockPtr :=
  (deref pindex).bind fun node =>
    if ¬ (node.nHeight ≥ 3) then .error .assertFail
    else
      let blocks2 := pindex
      (pprev pindex).bind fun blocks1 =>
      (pprev blocks1).bind fun blocks0 =>
      -- Sorting network.
      (swapIfLater blocks0 blocks2).bind fun (blocks0, blocks2) =>
      (swapIfLater blocks0 blocks1).bind fun (_, blocks1) =>
      (swapIfLater blocks1 blocks2).bind fun (blocks1, _) =>
        .ok blocks1

/-- The function `GetNextCashWorkRequired` of `pow.cpp`. -/
def GetNextCashWorkRequired (pindexPrev : BlockPtr) (pblock : CBlockHeader)
    (params : Params) : Except PowError Nat :=
  match pindexPrev with
  | [] => .error .assertFail
  | prev :: _ =>
    if params.fPowAllowMinDifficultyBlocks &&
        decide (pblock.GetBlockTime > prev.GetBlockTime + 2 * params.nPowTargetSpacing) then
      .ok (GetCompact (UintToArith256 params.powLimit))
    else
      -- Compute the difficulty based on the full adjustment interval.
      let nHeight := toU32 prev.nHeight
      -- line 242: `DifficultyAdjustmentInterval()` divides by `nPowTargetSpacing`
      if params.nPowTargetSpacing = 0 then .error .divByZero
      else if ¬ ((nHeight : Int) ≥ params.DifficultyAdjustmentInterval) then .error .assertFail
      else
        -- Get the last suitable block of the difficulty interval.
        (GetSuitableBlock pindexPrev).bind fun pindexLast =>
        if pindexLast = [] then .error .assertFail
        else
          -- Get the first suitable block of the difficulty interval.
          let nHeightFirst := (nHeight + (2 ^ 32 - 144)) % 2 ^ 32
          (GetAncestor pindexPrev (toInt32 nHeightFirst)).bind fun anc =>
          (GetSuitableBlock anc).bind fun pindexFirst =>
          if pindexFirst = [] then .error .assertFail
          else
            -- Compute the target based on time and work done during the interval.
            (ComputeTarget pindexFirst pindexLast params).bind fun nextTarget =>
              let powLimit := UintToArith256 params.powLimit
              if nextTarget > powLimit then .ok (GetCompact powLimit)
              else .ok (GetCompact nextTarget)

/-- The loop `while (pindex->pprev && pindex->nHeight % interval != 0 &&
pindex->nBits == nProofOfWorkLimit) pindex = pindex->pprev;` of `GetNextWorkRequired`,
followed by `return pindex->nBits`. -/
def lastNonMinDifficultyBits (interval : Int) (nProofOfWorkLimit : Nat) :
    BlockPtr → Except PowError Nat
  | [] => .error .nullDeref
  | pindex :: prev =>
    if prev ≠ [] ∧ pindex.nHeight.tmod interval ≠ 0 ∧ pindex.nBits = nProofOfWorkLimit then
      lastNonMinDifficultyBits interval nProofOfWorkLimit prev
    else .ok pindex.nBits

/-- The loop `for (int i = 0; pindexFirst && i < blockstogoback; i++)
pindexFirst = pindexFirst->pprev;` of `GetNextWorkRequired`. -/
def goBack : Nat → BlockPtr → BlockPtr
  | 0, p => p
  | _ + 1, [] => []
  | n + 1, _ :: prev => goBack n prev

/-- The function `GetNextWorkRequired` of `pow.cpp`. -/
def GetNextWorkRequired (pindexLast : BlockPtr) (pblock : CBlockHeader) (params : Params) :
    Except PowError Nat :=
  -- line 17, `nPow.SetCompact(pindexLast->nBits)`, reads through `pindexLast`
  (deref pindexLast).bind fun last =>
    let _nPow := (SetCompact last.nBits).value
    let nProofOfWorkLimit := GetCompact (UintToArith256 params.powLimit)
    -- Genesis block
    if pindexLast = [] then .ok nProofOfWorkLimit
    -- Special rule for regtest: we never retarget.
    else if params.fPowNoRetargeting then .ok last.nBits
    else if IsDAAEnabled params pindexLast then
      GetNextCashWorkRequired pindexLast pblock params
    else
      let bnPowLimit := UintToArith256 params.powLimitFork
      -- Only change once per difficulty adjustment interval
      -- line 36: `DifficultyAdjustmentInterval()` divides by `nPowTargetSpacing` and `%`
      -- divides by the interval
      if params.nPowTargetSpacing = 0 ∨ params.DifficultyAdjustmentInterval = 0 then
        .error .divByZero
      else if (last.nHeight + 1).tmod params.DifficultyAdjustmentInterval ≠ 0 then
        if params.fPowAllowMinDifficultyBlocks then
          if pblock.GetBlockTime > last.GetBlockTime + params.nPowTargetSpacing * 2 then
            .ok nProofOfWorkLimit
          else
            lastNonMinDifficultyBits params.DifficultyAdjustmentInterval nProofOfWorkLimit
              pindexLast
        else if inForkWindow params last.nHeight then .ok (GetCompact bnPowLimit)
        else if last.nHeight ≥ 1506585 ∧ last.nHeight ≤
            params.LCHHeight + params.LCHInitBlockCount + params.DifficultyAdjustmentInterval then
          .ok (GetCompact (SetCompact 0x1aa8946b).value)
        else .ok last.nBits
      else
        let blockstogoback :=
          if last.nHeight + 1 ≠ params.DifficultyAdjustmentInterval then
            params.DifficultyAdjustmentInterval
          else params.DifficultyAdjustmentInterval - 1
        let pindexFirst := goBack blockstogoback.toNat pindexLast
        match pindexFirst with
        | [] => .error .assertFail
        | first :: _ => CalculateNextWorkRequired pindexLast first.GetBlockTime params

/-- A chain as the chain index holds it: the genesis block has height 0 and no parent,
every other block is one higher than its parent. -/
def WellFormed : BlockPtr → Prop
  | [] => True
  | b :: prev => b.nHeight = (prev.length : Int) ∧ WellFormed prev

/-- Well-formedness of a chain can be checked by walking it. -/
instance instDecidableWellFormed : (p : BlockPtr) → Decidable (WellFormed p)
  | [] => isTrue trivial
  | b :: prev =>
    match instDecidableWellFormed prev with
    | isTrue h =>
      if hb : b.nHeight = (prev.length : Int) then isTrue ⟨hb, h⟩
      else isFalse (fun hw => hb hw.1)
    | isFalse h => isFalse (fun hw => h hw.2)

/-! ## Quantities of the specification -/

/-- The timespan of the specification of `computeTarget`: the difference of the two block
times clamped to `[72, 288] * nPowTargetSpacing`. -/
def specTimespan (first last : CBlockIndex) (params : Params) : Int :=
  max (72 * params.nPowTargetSpacing)
    (min (288 * params.nPowTargetSpacing) ((last.nTime : Int) - (first.nTime : Int)))

/-- The work `W` of the specification of `computeTarget`: the difference of chain work
scaled by `nPowTargetSpacing`, reduced modulo `2 ^ 256`, divided by the clamped timespan. -/
def specWork (first last : CBlockIndex) (params : Params) : Int :=
  ((((last.nChainWork : Int) - (first.nChainWork : Int)) * params.nPowTargetSpacing) %
    2 ^ 256) / specTimespan first last params

/-- The shift `s` of the specification of the legacy scaling: 1 when the bit length of
the old target exceeds 235, else 0. -/
def specShift (old : Nat) : Nat := if bits old > 235 then 1 else 0

/-- The exact-integer value of the specification of the legacy scaling,
`floor(((old >> s) * ts) / nPowTargetTimespan) << s`, for a timespan and a period that are
not negative. -/
def specScaled (old : Nat) (ts T : Int) : Nat :=
  (((old >>> specShift old) * ts.toNat) / T.toNat) <<< specShift old

/-! ## Sample data used to instantiate the statements -/

/-- Equality of results is decidable. -/
instance instDecidableEqExcept {ε α : Type} [DecidableEq ε] [DecidableEq α] :
    DecidableEq (Except ε α) := fun a b =>
  match a, b with
  | .ok x, .ok y =>
    if h : x = y then isTrue (by rw [h]) else isFalse (fun e => h (by cases e; rfl))
  | .error x, .error y =>
    if h : x = y then isTrue (by rw [h]) else isFalse (fun e => h (by cases e; rfl))
  | .ok _, .error _ => isFalse (fun e => by cases e)
  | .error _, .ok _ => isFalse (fun e => by cases e)

/-- Parameters of the end-to-end scenarios of the specification: 600 seconds between
blocks, a period of 14 days (2016 blocks), a limit of bit length 236. -/
def sampleParams : Params :=
  { powLimit := 2 ^ 236 - 1
    powLimitFork := 2 ^ 232 - 1
    nPowTargetSpacing := 600
    nPowTargetTimespan := 1209600
    fPowAllowMinDifficultyBlocks := false
    fPowNoRetargeting := false
    DAAHeight := 1600000
    LCHHeight := 1371111
    LCHInitBlockCount := 2000 }

/-- Parameters in the style of a regression-test network whose limit is `2 ^ 255 - 1`, so
that a block at the limit contributes a chain work of 2. -/
def easyParams : Params :=
  { powLimit := 2 ^ 255 - 1
    powLimitFork := 2 ^ 255 - 1
    nPowTargetSpacing := 600
    nPowTargetTimespan := 1209600
    fPowAllowMinDifficultyBlocks := false
    fPowNoRetargeting := false
    DAAHeight := 2016
    LCHHeight := 5000
    LCHInitBlockCount := 10 }

/-- Block of height `h` of `easyChain`: one block every 1300 seconds, each at the limit
`0x207fffff` and contributing a chain work of 2. -/
def easyBlock (h : Nat) : CBlockIndex :=
  { nHeight := h, nTime := 1000000 + 1300 * h, nBits := 0x207fffff, nChainWork := 2 * (h + 1) }

/-- A chain from the block of height `h` down to the genesis block. -/
def easyChain : Nat → BlockPtr
  | 0 => [easyBlock 0]
  | h + 1 => easyBlock (h + 1) :: easyChain h

/-- Parameters whose adjustment interval is 146 blocks. -/
def shortIntervalParams : Params :=
  { easyParams with nPowTargetTimespan := 87600, DAAHeight := 146 }


/-- A chain of height 2018 on which the continuous algorithm divides by zero: block 2017
carries a time just above the median time of its eleven predecessors, block 2018 continues
the regular schedule. -/
def stalledChain : BlockPtr :=
  { nHeight := 2018, nTime := 1000000 + 1300 * 2018, nBits := 0x207fffff, nChainWork := 2 * 2019 } ::
  { nHeight := 2017, nTime := 1000000 + 1300 * 2011 + 1, nBits := 0x207fffff,
    nChainWork := 2 * 2018 } :: easyChain 2016


/-- Parameters whose fork window ends 1000 blocks below the height 1506585, so that the
historical range from 1506585 to `LCHHeight + LCHInitBlockCount + interval` is not empty. -/
def historicalParams : Params :=
  { sampleParams with LCHHeight := 1505585, LCHInitBlockCount := 0 }

/-- Parameters whose fork window, heights 4000 to 4040, contains the retarget boundary
4031 of an interval of 2016 blocks. -/
def forkParams : Params :=
  { easyParams with powLimitFork := 2 ^ 232 - 1, DAAHeight := 10000, LCHHeight := 4000,
                    LCHInitBlockCount := 40 }

/-- Parameters of a test network: those of `easyParams` with the min-difficulty rule on and
the continuous algorithm activated at height 100000. -/
def testnetParams : Params :=
  { easyParams with fPowAllowMinDifficultyBlocks := true, DAAHeight := 100000 }

/-- A chain of height 2019 on a test network: the blocks of heights 2017 to 2019 are
min-difficulty blocks (`0x207fffff`), the block of height 2016, the first of its period,
has the bits `0x1f00ffff`; below it the blocks of `easyChain`. -/
def testnetChain : BlockPtr :=
  { nHeight := 2019, nTime := 1000000 + 1300 * 2019, nBits := 0x207fffff, nChainWork := 0 } ::
  { nHeight := 2018, nTime := 1000000 + 1300 * 2018, nBits := 0x207fffff, nChainWork := 0 } ::
  { nHeight := 2017, nTime := 1000000 + 1300 * 2017, nBits := 0x207fffff, nChainWork := 0 } ::
  { nHeight := 2016, nTime := 1000000 + 1300 * 2016, nBits := 0x1f00ffff, nChainWork := 0 } ::
  easyChain 2015

/-- Parameters with the period of 3.5 days (302400 seconds, spacing 150 seconds) for which
the shift guard was written, and a limit of `2 ^ 255 - 1`. -/
def wideLimitParams : Params :=
  { easyParams with nPowTargetSpacing := 150, nPowTargetTimespan := 302400 }

/-- Parameters with the period of 3.5 days and the limit `2 ^ 236 - 1`, the combination the
shift guard covers. -/
def shiftParams : Params :=
  { sampleParams with nPowTargetSpacing := 150, nPowTargetTimespan := 302400 }

/-- Parameters with a period of `2 ^ 20` seconds and the limit `2 ^ 236 - 1`. -/
def longPeriodParams : Params :=
  { sampleParams with nPowTargetSpacing := 512, nPowTargetTimespan := 1048576 }

/-- Parameters with a period of one second and the limit `2 ^ 255 - 1`. -/
def unitPeriodParams : Params :=
  { easyParams with nPowTargetSpacing := 1, nPowTargetTimespan := 1 }

/-- Test-network parameters whose period of 100 seconds is shorter than the spacing of 600
seconds: `DifficultyAdjustmentInterval()` is 0. -/
def zeroIntervalTestnetParams : Params :=
  { testnetParams with nPowTargetTimespan := 100 }

/-- Parameters of `easyParams` with a period of 100 seconds, shorter than the spacing of 600
seconds: `DifficultyAdjustmentInterval()` is 0. -/
def zeroIntervalParams : Params :=
  { easyParams with nPowTargetTimespan := 100 }

/-- Parameters of `easyParams` with a spacing of 0 seconds: the division inside
`DifficultyAdjustmentInterval()` has a zero divisor. -/
def zeroSpacingParams : Params :=
  { easyParams with nPowTargetSpacing := 0 }

/-- Parameters of `sampleParams` with the fork at height 1600000, no fork window beyond it
and a period of 100 seconds: `DifficultyAdjustmentInterval()` is 0 and the historical range
runs from 1506585 to 1600000. -/
def zeroIntervalHistoricalParams : Params :=
  { sampleParams with LCHHeight := 1600000, LCHInitBlockCount := 0, nPowTargetTimespan := 100 }

set_option maxRecDepth 100000

/-! ## Auxiliary lemmas: results and bit lengths -/

theorem testBit_top (p x : Nat) (hx : x < 2 ^ (p + 1)) : x.testBit p = decide (2 ^ p ≤ x) := by
  rw [Nat.testBit_to_div_mod]
  have hp : 0 < 2 ^ p := Nat.two_pow_pos p
  by_cases h : 2 ^ p ≤ x
  · have h1 : x / 2 ^ p = 1 := by
      apply Nat.div_eq_of_lt_le
      · simpa using h
      · rw [pow_succ] at hx
        omega
    simp [h, h1]
  · have h1 : x / 2 ^ p = 0 := Nat.div_eq_of_lt (by omega)
    simp [h, h1]

theorem bitsBelow_le_iff : ∀ (p x n : Nat), x < 2 ^ p → (bitsBelow p x ≤ n ↔ x < 2 ^ n)
  | 0, x, n, hx => by
    have h0 : x = 0 := by simpa using hx
    subst h0
    simp [bitsBelow]
  | p + 1, x, n, hx => by
    unfold bitsBelow
    rw [testBit_top p x hx]
    by_cases h : 2 ^ p ≤ x
    · simp only [h, decide_True, if_true]
      constructor
      · intro hn
        exact lt_of_lt_of_le hx (Nat.pow_le_pow_right (by norm_num) hn)
      · intro hn
        have : 2 ^ p < 2 ^ n := lt_of_le_of_lt h hn
        have := (Nat.pow_lt_pow_iff_right (by norm_num : 1 < 2)).1 this
        omega
    · simp only [h, decide_False]
      exact bitsBelow_le_iff p x n (by omega)

theorem bits_le_iff (x n : Nat) (hx : x < 2 ^ 256) : bits x ≤ n ↔ x < 2 ^ n :=
  bitsBelow_le_iff 256 x n hx

theorem bits_le_256 (x : Nat) (hx : x < 2 ^ 256) : bits x ≤ 256 :=
  (bits_le_iff x 256 hx).2 hx

/-- Number of significant bytes. -/
theorem nSize_eq (x k : Nat) (hx : x < 2 ^ 256) (hhi : x < 2 ^ (8 * k))
    (hlo : k ≠ 0 → 2 ^ (8 * (k - 1)) ≤ x) : (bits x + 7) / 8 = k := by
  have h1 : bits x ≤ 8 * k := (bits_le_iff x _ hx).2 hhi
  have h2 : k ≠ 0 → ¬ bits x ≤ 8 * (k - 1) := fun hk hb =>
    absurd ((bits_le_iff x _ hx).1 hb) (not_lt.2 (hlo hk))
  by_cases hk : k = 0
  · subst hk; omega
  · have := h2 hk
    omega

theorem nSize_spec (x : Nat) (hx : x < 2 ^ 256) :
    (bits x + 7) / 8 ≤ 32 ∧ x < 2 ^ (8 * ((bits x + 7) / 8)) ∧
      ((bits x + 7) / 8 ≠ 0 → 2 ^ (8 * ((bits x + 7) / 8 - 1)) ≤ x) := by
  have h256 := bits_le_256 x hx
  refine ⟨by omega, ?_, ?_⟩
  · exact (bits_le_iff x _ hx).1 (by omega)
  · intro hk
    by_contra hlt
    have := (bits_le_iff x (8 * ((bits x + 7) / 8 - 1)) hx).2 (not_le.1 hlt)
    omega

/-! ## Auxiliary lemmas: the compact codec in arithmetic form -/

theorem and_signBit_eq_zero_iff (c : Nat) (hc : c < 2 ^ 24) :
    c &&& 0x00800000 = 0 ↔ c < 2 ^ 23 := by
  have h := Nat.and_two_pow c 23
  have ht := testBit_top 23 c hc
  norm_num at h ht ⊢
  rw [h, ht]
  by_cases h2 : 8388608 ≤ c
  · simp [h2]
  · simp [h2]; omega

theorem or_shiftLeft_24 (c e : Nat) (hc : c < 2 ^ 24) : c ||| (e <<< 24) = c + e * 2 ^ 24 := by
  rw [Nat.shiftLeft_eq, Nat.or_comm, Nat.mul_comm e, ← Nat.mul_add_lt_is_or hc, Nat.add_comm]

theorem mantissa_lt (x k : Nat) (hhi : x < 2 ^ (8 * k)) :
    (if k ≤ 3 then x * 2 ^ (8 * (3 - k)) else x / 2 ^ (8 * (k - 3))) < 2 ^ 24 := by
  split_ifs with h
  · have : (2:Nat) ^ 24 = 2 ^ (8 * k) * 2 ^ (8 * (3 - k)) := by
      rw [← pow_add]; congr 1; omega
    rw [this]
    exact Nat.mul_lt_mul_of_pos_right hhi (Nat.two_pow_pos _)
  · rw [Nat.div_lt_iff_lt_mul (Nat.two_pow_pos _), ← pow_add]
    have : 24 + 8 * (k - 3) = 8 * k := by omega
    rwa [this]

theorem GetCompact_eq (x k : Nat) (hk : (bits x + 7) / 8 = k) (hhi : x < 2 ^ (8 * k)) :
    GetCompact x =
      if 2 ^ 23 ≤ (if k ≤ 3 then x * 2 ^ (8 * (3 - k)) else x / 2 ^ (8 * (k - 3))) then
        (if k ≤ 3 then x * 2 ^ (8 * (3 - k)) else x / 2 ^ (8 * (k - 3))) / 256 + (k + 1) * 2 ^ 24
      else (if k ≤ 3 then x * 2 ^ (8 * (3 - k)) else x / 2 ^ (8 * (k - 3))) + k * 2 ^ 24 := by
  have hc := mantissa_lt x k hhi
  unfold GetCompact
  simp only [hk]
  rw [Nat.shiftLeft_eq x, Nat.shiftRight_eq_div_pow x]
  generalize (if k ≤ 3 then x * 2 ^ (8 * (3 - k)) else x / 2 ^ (8 * (k - 3))) = c at hc ⊢
  have hc32 : c % 2 ^ 32 = c := Nat.mod_eq_of_lt (by omega)
  rw [hc32]
  have hs := and_signBit_eq_zero_iff c hc
  by_cases h : 2 ^ 23 ≤ c
  · have h1 : c &&& 0x00800000 ≠ 0 := fun h0 => absurd (hs.1 h0) (by omega)
    rw [if_pos h1, if_pos h, Nat.shiftRight_eq_div_pow, or_shiftLeft_24 _ _ (by omega)]
  · have h1 : c &&& 0x00800000 = 0 := hs.2 (by omega)
    simp only [h1, ne_eq, not_true_eq_false, if_false, h]
    rw [or_shiftLeft_24 _ _ hc]

theorem SetCompact_eq (m e : Nat) (hm : m < 2 ^ 23) :
    SetCompact (m + e * 2 ^ 24) =
      { value := if e ≤ 3 then m / 2 ^ (8 * (3 - e)) else (m * 2 ^ (8 * (e - 3))) % 2 ^ 256
        fNegative := false
        fOverflow := decide ((if e ≤ 3 then m / 2 ^ (8 * (3 - e)) else m) ≠ 0) &&
          (decide (e > 34) || (decide ((if e ≤ 3 then m / 2 ^ (8 * (3 - e)) else m) > 0xff) &&
            decide (e > 33)) ||
          (decide ((if e ≤ 3 then m / 2 ^ (8 * (3 - e)) else m) > 0xffff) && decide (e > 32))) } := by
  have h1 : (m + e * 2 ^ 24) >>> 24 = e := by
    rw [Nat.shiftRight_eq_div_pow]; omega
  have h2 : (m + e * 2 ^ 24) &&& 0x007fffff = m := by
    have := Nat.and_pow_two_sub_one_eq_mod (m + e * 2 ^ 24) 23
    norm_num at this ⊢
    rw [this]; omega
  have h3 : (m + e * 2 ^ 24) &&& 0x00800000 = 0 := by
    have h := Nat.and_two_pow (m + e * 2 ^ 24) 23
    rw [Nat.testBit_to_div_mod] at h
    have : ¬ ((m + e * 2 ^ 24) / 2 ^ 23 % 2 = 1) := by omega
    norm_num at h this ⊢
    rw [h]; simp [this]
  unfold SetCompact
  simp only [h1, h2, h3, shl256, U256, Nat.shiftLeft_eq, Nat.shiftRight_eq_div_pow]
  by_cases he : e ≤ 3 <;> simp [he]

theorem SetCompact_GetCompact (x : Nat) (hx : x < 2 ^ 256) :
    (SetCompact (GetCompact x)).value ≤ x ∧ (SetCompact (GetCompact x)).fNegative = false ∧
      (SetCompact (GetCompact x)).fOverflow = false := by
  obtain ⟨hk32, hhi, -⟩ := nSize_spec x hx
  have hG := GetCompact_eq x _ rfl hhi
  have hc := mantissa_lt x _ hhi
  generalize (bits x + 7) / 8 = k at hk32 hhi hG hc
  by_cases hk : k ≤ 3
  · simp only [hk, if_true] at hG hc
    have hk' : 3 - k ≤ 3 := by omega
    generalize hj : 3 - k = j at hG hc hk'
    by_cases h23 : 2 ^ 23 ≤ x * 2 ^ (8 * j)
    · rw [if_pos h23] at hG
      rw [hG, Nat.add_comm, Nat.add_comm, SetCompact_eq _ _ (by omega)]
      interval_cases j
      all_goals (have hk2 : k = 3 ∨ k = 2 ∨ k = 1 ∨ k = 0 := by omega)
      all_goals (rcases hk2 with h | h | h | h <;> subst h <;> simp at hj h23 hc ⊢ <;> omega)
    · rw [if_neg h23] at hG
      rw [hG, SetCompact_eq _ _ (by omega)]
      simp only [hk, if_true]
      have : 3 - k = j := hj
      rw [this, Nat.mul_div_cancel _ (Nat.two_pow_pos _)]
      simp
      omega
  · simp only [hk, if_false] at hG hc
    have hP : 0 < 2 ^ (8 * (k - 3)) := Nat.two_pow_pos _
    have hcP : x / 2 ^ (8 * (k - 3)) * 2 ^ (8 * (k - 3)) ≤ x := Nat.div_mul_le_self _ _
    generalize x / 2 ^ (8 * (k - 3)) = c at hG hc hcP
    by_cases h23 : 2 ^ 23 ≤ c
    · rw [if_pos h23] at hG
      rw [hG, SetCompact_eq _ _ (by omega)]
      have he : ¬ (k + 1 ≤ 3) := by omega
      simp only [he, if_false]
      refine ⟨?_, trivial, ?_⟩
      · refine le_trans (Nat.mod_le _ _) (le_trans ?_ hcP)
        have : 8 * (k + 1 - 3) = 8 + 8 * (k - 3) := by omega
        rw [this, pow_add, ← Nat.mul_assoc]
        apply Nat.mul_le_mul_right
        omega
      · have h1 : ¬ (k + 1 > 34) := by omega
        have h2 : ¬ (k + 1 > 33) := by omega
        have h3 : ¬ (c / 256 > 0xffff) := by omega
        simp [h1, h2, h3]
    · rw [if_neg h23] at hG
      rw [hG, SetCompact_eq _ _ (by omega)]
      simp only [hk, if_false]
      refine ⟨le_trans (Nat.mod_le _ _) hcP, trivial, ?_⟩
      have h1 : ¬ (k > 34) := by omega
      have h2 : ¬ (k > 33) := by omega
      have h3 : ¬ (k > 32) := by omega
      simp [h1, h2, h3]

/-! ## Auxiliary lemmas: results stay within the limit -/

theorem bind_eq_ok {α β : Type} (e : Except PowError α) (f : α → Except PowError β) (b : β) :
    e.bind f = .ok b ↔ ∃ a, e = .ok a ∧ f a = .ok b := by
  cases e <;> simp [Except.bind]

theorem UintToArith256_lt (x : Nat) : UintToArith256 x < 2 ^ 256 :=
  Nat.mod_lt _ (by norm_num [U256])

theorem GetCompact_within (limit x : Nat) (hl : limit < 2 ^ 256) (hx : x ≤ limit) :
    (SetCompact (GetCompact x)).value ≤ limit ∧ (SetCompact (GetCompact x)).fNegative = false ∧
      (SetCompact (GetCompact x)).fOverflow = false := by
  obtain ⟨h1, h2, h3⟩ := SetCompact_GetCompact x (by omega)
  exact ⟨le_trans h1 hx, h2, h3⟩

theorem ok_bind {α β : Type} (a : α) (f : α → Except PowError β) :
    (Except.ok a : Except PowError α).bind f = f a := rfl

theorem calculateNextWork_within (params : Params) (pindexLast : BlockPtr) (last : CBlockIndex)
    (f : Int) (nBits : Nat) (hl : deref pindexLast = .ok last)
    (hw : inForkWindow params last.nHeight = false)
    (h : CalculateNextWorkRequired pindexLast f params = .ok nBits) :
    (SetCompact nBits).value ≤ UintToArith256 params.powLimit ∧
      (SetCompact nBits).fNegative = false ∧ (SetCompact nBits).fOverflow = false := by
  unfold CalculateNextWorkRequired at h
  rw [hl, ok_bind] at h
  simp only [hw, Bool.false_eq_true, if_false, bind_eq_ok] at h
  obtain ⟨bnNew, -, h⟩ := h
  cases h
  apply GetCompact_within _ _ (UintToArith256_lt _)
  split_ifs <;> omega

theorem getNextCashWork_within (params : Params) (pindexPrev : BlockPtr) (pblock : CBlockHeader)
    (nBits : Nat) (h : GetNextCashWorkRequired pindexPrev pblock params = .ok nBits) :
    (SetCompact nBits).value ≤ UintToArith256 params.powLimit ∧
      (SetCompact nBits).fNegative = false ∧ (SetCompact nBits).fOverflow = false := by
  unfold GetNextCashWorkRequired at h
  cases pindexPrev with
  | nil => cases h
  | cons prev rest =>
    simp only at h
    split_ifs at h with h1 h2
    · cases h
      exact GetCompact_within _ _ (UintToArith256_lt _) le_rfl
    · simp only [bind_eq_ok] at h
      obtain ⟨pindexLast, -, h⟩ := h
      split_ifs at h with h3
      simp only [bind_eq_ok] at h
      obtain ⟨anc, -, pindexFirst, -, h⟩ := h
      split_ifs at h with h4
      simp only [bind_eq_ok] at h
      obtain ⟨nextTarget, -, h⟩ := h
      split_ifs at h with h5
      · cases h
        exact GetCompact_within _ _ (UintToArith256_lt _) le_rfl
      · cases h
        exact GetCompact_within _ _ (UintToArith256_lt _) (by omega)

/-! ## Auxiliary lemmas: the limit adjustment step -/

theorem limitAdjustmentStep_low (params : Params) (ts : Int)
    (hT : 0 < params.nPowTargetTimespan) (h : ts ≤ params.nPowTargetTimespan / 4) :
    limitAdjustmentStep params ts = params.nPowTargetTimespan / 4 := by
  simp only [limitAdjustmentStep, Int.tdiv_eq_ediv (le_of_lt hT) (by norm_num : (0 : Int) ≤ 4)]
  split_ifs <;> omega

theorem limitAdjustmentStep_high (params : Params) (ts : Int)
    (hT : 0 < params.nPowTargetTimespan) (h : params.nPowTargetTimespan * 4 ≤ ts) :
    limitAdjustmentStep params ts = params.nPowTargetTimespan * 4 := by
  simp only [limitAdjustmentStep, Int.tdiv_eq_ediv (le_of_lt hT) (by norm_num : (0 : Int) ≤ 4)]
  split_ifs <;> omega

theorem calculateNextWork_of_timespan_eq (params : Params) (p : BlockPtr) (f g : Int)
    (h : ∀ last, deref p = .ok last →
      limitAdjustmentStep params (last.GetBlockTime - f) =
        limitAdjustmentStep params (last.GetBlockTime - g)) :
    CalculateNextWorkRequired p f params = CalculateNextWorkRequired p g params := by
  cases p with
  | nil => rfl
  | cons last prev =>
    have := h last rfl
    simp only [CalculateNextWorkRequired, deref, Except.bind, this]

/-! ## The claims -/

/-- C1. `CheckProofOfWork` accepts exactly when the decoded target is flagged neither
negative nor overflow, is non-zero, is at most `powLimit`, and the 256-bit value of the hash
is at most the decoded target. In particular a negative, overflowing, zero or
above-limit target is rejected for every hash. -/
theorem checkProofOfWork_iff (hash nBits : Nat) (params : Params) :
    CheckProofOfWork hash nBits params = true ↔
      (SetCompact nBits).fNegative = false ∧ (SetCompact nBits).fOverflow = false ∧
      (SetCompact nBits).value ≠ 0 ∧
      (SetCompact nBits).value ≤ UintToArith256 params.powLimit ∧
      UintToArith256 hash ≤ (SetCompact nBits).value := by
  unfold CheckProofOfWork
  generalize SetCompact nBits = d
  obtain ⟨v, n, o⟩ := d
  cases n <;> cases o <;> simp
  omega

/-- C2, as the code behaves. Called with the null pointer, `GetNextWorkRequired` reads
`pindexLast->nBits` (line 17) before the test `pindexLast == NULL` (line 22): the call
fails on the null dereference for every header and every parameter set, and the genesis
branch that returns the compact form of `powLimit` is never reached. -/
theorem getNextWorkRequired_null_fails (pblock : CBlockHeader) (params : Params) :
    GetNextWorkRequired [] pblock params = .error .nullDeref := rfl

/-- C3. With `fPowNoRetargeting` set, `GetNextWorkRequired` called on a present previous
node returns exactly the `nBits` of that node, whatever its height, times and bits, and
whatever the other parameters and the candidate header. -/
theorem getNextWorkRequired_noRetargeting (params : Params) (last : CBlockIndex)
    (prev : BlockPtr) (pblock : CBlockHeader) (h : params.fPowNoRetargeting = true) :
    GetNextWorkRequired (last :: prev) pblock params = .ok last.nBits := by
  simp [GetNextWorkRequired, deref, Except.bind, h]

/-- Witness of C3: a node in the fork window, above the activation height of the continuous
algorithm, with the flag set. -/
theorem getNextWorkRequired_noRetargeting_witness :
    GetNextWorkRequired [⟨1371200, 77, 0x1aa8946b, 5⟩] ⟨99⟩
      ⟨2 ^ 236 - 1, 2 ^ 232 - 1, 150, 302400, true, true, 10, 1371111, 2000⟩ =
        .ok 0x1aa8946b :=
  getNextWorkRequired_noRetargeting _ _ _ _ rfl

/-- C4. `CalculateNextWorkRequired` depends on `nFirstBlockTime` only through the clamped
timespan: with a positive `nPowTargetTimespan`, every first-block time whose actual
timespan is at most a quarter of `nPowTargetTimespan` gives the result of an actual timespan
of exactly that quarter, and every one whose actual timespan is at least four times
`nPowTargetTimespan` gives the result of exactly four times. -/
theorem calculateNextWork_clamped (params : Params) (last : CBlockIndex) (prev : BlockPtr)
    (hT : 0 < params.nPowTargetTimespan) :
    (∀ f : Int, last.GetBlockTime - f ≤ params.nPowTargetTimespan / 4 →
      CalculateNextWorkRequired (last :: prev) f params =
        CalculateNextWorkRequired (last :: prev)
          (last.GetBlockTime - params.nPowTargetTimespan / 4) params) ∧
    (∀ f : Int, params.nPowTargetTimespan * 4 ≤ last.GetBlockTime - f →
      CalculateNextWorkRequired (last :: prev) f params =
        CalculateNextWorkRequired (last :: prev)
          (last.GetBlockTime - params.nPowTargetTimespan * 4) params) := by
  constructor
  · intro f hf
    apply calculateNextWork_of_timespan_eq
    intro l hl
    cases hl
    rw [limitAdjustmentStep_low params _ hT hf, limitAdjustmentStep_low params _ hT (by omega)]
  · intro f hf
    apply calculateNextWork_of_timespan_eq
    intro l hl
    cases hl
    rw [limitAdjustmentStep_high params _ hT hf, limitAdjustmentStep_high params _ hT (by omega)]

/-- Witness of C4: with a period of 1209600 seconds and a previous block at time 2000000000,
an actual timespan of 1 second gives the result of 302400 seconds, and an actual timespan of
1209600000 seconds (1000 periods) gives the result of 4838400 seconds. -/
theorem calculateNextWork_clamped_witness :
    CalculateNextWorkRequired [⟨4031, 2000000000, 0x1d00ffff, 0⟩] (2000000000 - 1)
        sampleParams =
      CalculateNextWorkRequired [⟨4031, 2000000000, 0x1d00ffff, 0⟩] (2000000000 - 302400)
        sampleParams ∧
    CalculateNextWorkRequired [⟨4031, 2000000000, 0x1d00ffff, 0⟩] (2000000000 - 1209600000)
        sampleParams =
      CalculateNextWorkRequired [⟨4031, 2000000000, 0x1d00ffff, 0⟩] (2000000000 - 4838400)
        sampleParams :=
  ⟨(calculateNextWork_clamped sampleParams ⟨4031, 2000000000, 0x1d00ffff, 0⟩ []
      (by decide)).1 (2000000000 - 1) (by decide),
   (calculateNextWork_clamped sampleParams ⟨4031, 2000000000, 0x1d00ffff, 0⟩ []
      (by decide)).2 (2000000000 - 1209600000) (by decide)⟩

/-- C5. The computed target never exceeds the limit: whenever `CalculateNextWorkRequired`
returns for a previous node outside the fork window, and whenever
`GetNextCashWorkRequired` returns, the returned compact bits decode to a target that is at
most `powLimit` and is flagged neither negative nor overflow. Nothing is assumed about the
intermediate 256-bit product, which may wrap around. -/
theorem nextWork_within_powLimit (params : Params) :
    (∀ (pindexLast : BlockPtr) (last : CBlockIndex) (f : Int) (nBits : Nat),
      deref pindexLast = .ok last → inForkWindow params last.nHeight = false →
      CalculateNextWorkRequired pindexLast f params = .ok nBits →
        (SetCompact nBits).value ≤ UintToArith256 params.powLimit ∧
          (SetCompact nBits).fNegative = false ∧ (SetCompact nBits).fOverflow = false) ∧
    (∀ (pindexPrev : BlockPtr) (pblock : CBlockHeader) (nBits : Nat),
      GetNextCashWorkRequired pindexPrev pblock params = .ok nBits →
        (SetCompact nBits).value ≤ UintToArith256 params.powLimit ∧
          (SetCompact nBits).fNegative = false ∧ (SetCompact nBits).fOverflow = false) :=
  ⟨fun pindexLast last f nBits hl hw h =>
      calculateNextWork_within params pindexLast last f nBits hl hw h,
   fun pindexPrev pblock nBits h => getNextCashWork_within params pindexPrev pblock nBits h⟩

/-- Witness of C5: a previous node at `0x207fffff` whose scaled product wraps around
`2 ^ 256`, and the chain `easyChain 2016` for the continuous algorithm. -/
theorem nextWork_within_powLimit_witness :
    (2 ^ 256 ≤ ((SetCompact 0x207fffff).value >>> 1) * 4838400 ∧
      (SetCompact 0x1e17bd77).value ≤ UintToArith256 easyParams.powLimit ∧
      (SetCompact 0x1e17bd77).fNegative = false ∧ (SetCompact 0x1e17bd77).fOverflow = false) ∧
    ((SetCompact 0x207fffff).value ≤ UintToArith256 easyParams.powLimit ∧
      (SetCompact 0x207fffff).fNegative = false ∧ (SetCompact 0x207fffff).fOverflow = false) :=
  ⟨⟨by decide, (nextWork_within_powLimit easyParams).1 [⟨2015, 5000000, 0x207fffff, 4032⟩]
      ⟨2015, 5000000, 0x207fffff, 4032⟩ 0 0x1e17bd77 rfl rfl rfl⟩,
   (nextWork_within_powLimit easyParams).2 (easyChain 2016) ⟨0⟩ 0x207fffff rfl⟩

/-! ## Auxiliary lemmas: encoding a decoded encoding -/

/-- The value `c * 2 ^ (8 * (k - 3))` has `k` significant bytes and mantissa `c`. -/
theorem GetCompact_mul (c k : Nat) (hk3 : 3 ≤ k) (hk32 : k ≤ 32) (hc16 : 2 ^ 16 ≤ c)
    (hc24 : c < 2 ^ 24) :
    GetCompact (c * 2 ^ (8 * (k - 3))) =
      if 2 ^ 23 ≤ c then c / 256 + (k + 1) * 2 ^ 24 else c + k * 2 ^ 24 := by
  have hP : 0 < 2 ^ (8 * (k - 3)) := Nat.two_pow_pos _
  have hhi : c * 2 ^ (8 * (k - 3)) < 2 ^ (8 * k) := by
    have : (2:Nat) ^ (8 * k) = 2 ^ 24 * 2 ^ (8 * (k - 3)) := by
      rw [← pow_add]; congr 1; omega
    rw [this]
    exact Nat.mul_lt_mul_of_pos_right hc24 hP
  have hlo : 2 ^ (8 * (k - 1)) ≤ c * 2 ^ (8 * (k - 3)) := by
    have : (2:Nat) ^ (8 * (k - 1)) = 2 ^ 16 * 2 ^ (8 * (k - 3)) := by
      rw [← pow_add]; congr 1; omega
    rw [this]
    exact Nat.mul_le_mul_right _ hc16
  have hx : c * 2 ^ (8 * (k - 3)) < 2 ^ 256 :=
    lt_of_lt_of_le hhi (Nat.pow_le_pow_right (by norm_num) (by omega))
  have hs := nSize_eq _ k hx hhi (fun _ => hlo)
  rw [GetCompact_eq _ k hs hhi]
  by_cases h3 : k ≤ 3
  · have : k = 3 := by omega
    subst this
    simp
  · simp only [h3, if_false, Nat.mul_div_cancel _ hP]

/-- Shape of a decoded encoding: a value below `2 ^ 16` is reproduced exactly, otherwise
the decoded value is a mantissa `c` of three bytes shifted to `k` significant bytes. -/
theorem decode_encode_form (t : Nat) (ht : t < 2 ^ 256) :
    (t < 2 ^ 16 ∧ (SetCompact (GetCompact t)).value = t) ∨
    ∃ k c, 3 ≤ k ∧ k ≤ 32 ∧ 2 ^ 16 ≤ c ∧ c < 2 ^ 24 ∧
      (SetCompact (GetCompact t)).value = c * 2 ^ (8 * (k - 3)) ∧
      GetCompact t = (if 2 ^ 23 ≤ c then c / 256 + (k + 1) * 2 ^ 24 else c + k * 2 ^ 24) := by
  obtain ⟨hk32, hhi, hlo⟩ := nSize_spec t ht
  have hG := GetCompact_eq t _ rfl hhi
  have hc := mantissa_lt t _ hhi
  generalize (bits t + 7) / 8 = k at hk32 hhi hlo hG hc
  by_cases hk : k ≤ 2
  · left
    have hk3 : k ≤ 3 := by omega
    simp only [hk3, if_true] at hG hc
    have h16 : t < 2 ^ 16 :=
      lt_of_lt_of_le hhi (Nat.pow_le_pow_right (by norm_num) (by omega))
    refine ⟨h16, ?_⟩
    by_cases h23 : 2 ^ 23 ≤ t * 2 ^ (8 * (3 - k))
    · rw [if_pos h23] at hG
      rw [hG, SetCompact_eq _ _ (by omega)]
      interval_cases k <;> simp at h23 hc hhi ⊢ <;> omega
    · rw [if_neg h23] at hG
      rw [hG, SetCompact_eq _ _ (by omega)]
      simp only [hk3, if_true]
      rw [Nat.mul_div_cancel _ (Nat.two_pow_pos _)]
  · right
    have hP : 0 < 2 ^ (8 * (k - 3)) := Nat.two_pow_pos _
    have hm : (if k ≤ 3 then t * 2 ^ (8 * (3 - k)) else t / 2 ^ (8 * (k - 3))) =
        t / 2 ^ (8 * (k - 3)) := by
      split_ifs with h3
      · have : k = 3 := by omega
        subst this
        simp
      · rfl
    rw [hm] at hG hc
    have hcP : t / 2 ^ (8 * (k - 3)) * 2 ^ (8 * (k - 3)) ≤ t := Nat.div_mul_le_self _ _
    have hc16 : 2 ^ 16 ≤ t / 2 ^ (8 * (k - 3)) := by
      rw [Nat.le_div_iff_mul_le hP, ← pow_add]
      have : 16 + 8 * (k - 3) = 8 * (k - 1) := by omega
      rw [this]
      exact hlo (by omega)
    generalize t / 2 ^ (8 * (k - 3)) = c at hG hc hcP hc16
    by_cases h23 : 2 ^ 23 ≤ c
    · rw [if_pos h23] at hG
      refine ⟨k, c / 256 * 256, by omega, hk32, by omega, by omega, ?_, ?_⟩
      · rw [hG, SetCompact_eq _ _ (by omega)]
        have he : ¬ (k + 1 ≤ 3) := by omega
        simp only [he, if_false]
        have : 8 * (k + 1 - 3) = 8 + 8 * (k - 3) := by omega
        rw [this, pow_add, ← Nat.mul_assoc]
        apply Nat.mod_eq_of_lt
        refine lt_of_le_of_lt (le_trans ?_ hcP) ht
        apply Nat.mul_le_mul_right
        omega
      · rw [hG]
        have h1 : 2 ^ 23 ≤ c / 256 * 256 := by omega
        have h2 : c / 256 * 256 / 256 = c / 256 := by omega
        rw [if_pos h1, h2]
    · rw [if_neg h23] at hG
      refine ⟨k, c, by omega, hk32, hc16, hc, ?_, ?_⟩
      · rw [hG, SetCompact_eq _ _ (by omega)]
        by_cases h3 : k ≤ 3
        · have : k = 3 := by omega
          subst this
          simp
        · simp only [h3, if_false]
          exact Nat.mod_eq_of_lt (lt_of_le_of_lt hcP ht)
      · rw [hG, if_neg h23]

/-- Encoding a decoded encoding gives the encoding back. -/
theorem GetCompact_idem (t : Nat) (ht : t < 2 ^ 256) :
    GetCompact (SetCompact (GetCompact t)).value = GetCompact t := by
  rcases decode_encode_form t ht with ⟨-, h⟩ | ⟨k, c, hk3, hk32, hc16, hc24, hv, hG⟩
  · rw [h]
  · rw [hv, hG, GetCompact_mul c k hk3 hk32 hc16 hc24]

/-- A decoded encoding of bit length 236 is even. -/
theorem decoded_even (t : Nat) (ht : t < 2 ^ 256)
    (h : 2 ^ 235 ≤ (SetCompact (GetCompact t)).value) :
    (SetCompact (GetCompact t)).value % 2 = 0 := by
  rcases decode_encode_form t ht with ⟨h16, hv⟩ | ⟨k, c, hk3, hk32, hc16, hc24, hv, hG⟩
  · rw [hv] at h; omega
  · rw [hv] at h ⊢
    by_cases h3 : k ≤ 3
    · have : k = 3 := by omega
      subst this
      simp at h; omega
    · have : 8 * (k - 3) = (8 * (k - 3) - 1) + 1 := by omega
      rw [this, pow_succ, ← Nat.mul_assoc]
      exact Nat.mul_mod_left _ _

theorem retarget_steady (x : Nat) (hx : x < 2 ^ 236) (he : 2 ^ 235 ≤ x → x % 2 = 0) :
    retarget x 1209600 1209600 = .ok x := by
  have hb := bits_le_iff x 235 (by omega)
  have hu : toU64 1209600 = 1209600 := by decide
  have hd : ∀ y : Nat, y < 2 ^ 235 → y * 1209600 % 2 ^ 256 / 1209600 = y := by
    intro y hy
    rw [Nat.mod_eq_of_lt (by omega), Nat.mul_div_cancel _ (by norm_num)]
  unfold retarget
  simp only [mulScalar, div256, hu, U256, shl256, Nat.shiftLeft_eq, Nat.shiftRight_eq_div_pow]
  have hz : ¬ (1209600 = 0) := by norm_num
  rw [if_neg hz, ok_bind]
  by_cases h : bits x > 235
  · have h235 : 2 ^ 235 ≤ x := by
      by_contra hlt
      exact absurd (hb.2 (by omega)) (by omega)
    have := he h235
    simp only [h, decide_True, if_true]
    rw [pow_one, hd _ (by omega), Nat.mod_eq_of_lt (by omega)]
    congr 1
    omega
  · have h235 : x < 2 ^ 235 := hb.1 (by omega)
    simp only [h, decide_False]
    simp only [Bool.false_eq_true, if_false]
    rw [hd _ h235]

/-- C6. Steady state leaves the difficulty unchanged: with a period of 1209600 seconds
(and any spacing, 600 seconds included), for every target `t` with `0 < t ≤ powLimit` of bit length at
most 236 and every previous node outside the fork window whose bits are the encoding of
`t`, a first-block time exactly one period before the time of the previous node makes
`CalculateNextWorkRequired` return the bits of the previous node. -/
theorem calculateNextWork_steady (params : Params) (last : CBlockIndex) (prev : BlockPtr)
    (t : Nat) (hT : params.nPowTargetTimespan = 1209600)
    (ht0 : 0 < t) (htl : t ≤ UintToArith256 params.powLimit) (htb : bits t ≤ 236)
    (hw : inForkWindow params last.nHeight = false) (hbits : last.nBits = GetCompact t) :
    CalculateNextWorkRequired (last :: prev)
      (last.GetBlockTime - params.nPowTargetTimespan) params = .ok last.nBits := by
  have hlim := UintToArith256_lt params.powLimit
  have ht : t < 2 ^ 256 := by omega
  have ht236 : t < 2 ^ 236 := (bits_le_iff t 236 ht).1 htb
  obtain ⟨hle, -, -⟩ := SetCompact_GetCompact t ht
  have hstep : limitAdjustmentStep params
      (last.GetBlockTime - (last.GetBlockTime - params.nPowTargetTimespan)) = 1209600 := by
    have : last.GetBlockTime - (last.GetBlockTime - params.nPowTargetTimespan) = 1209600 := by
      rw [hT]; omega
    rw [this]
    simp only [limitAdjustmentStep, hT]
    decide
  unfold CalculateNextWorkRequired
  simp only [deref, ok_bind, hw, Bool.false_eq_true, if_false, hstep]
  rw [hT, hbits, retarget_steady _ (by omega) (decoded_even t ht), ok_bind]
  have hnc : ¬ ((SetCompact (GetCompact t)).value > UintToArith256 params.powLimit) := by omega
  simp only [hnc, if_false, GetCompact_idem t ht]

/-- Witness of C6: the target is the limit `2 ^ 236 - 1` itself. -/
theorem calculateNextWork_steady_witness :
    CalculateNextWorkRequired [⟨4031, 2000000000, 0x1e0fffff, 0⟩]
      (2000000000 - 1209600) sampleParams = .ok 0x1e0fffff :=
  calculateNextWork_steady sampleParams ⟨4031, 2000000000, 0x1e0fffff, 0⟩ [] (2 ^ 236 - 1)
    rfl (by decide) (by decide) (by decide) (by decide) (by decide)

/-- C7. `GetSuitableBlock` returns the block with the median time among the node, its parent
and its grandparent: for every node of height at least 3 the call returns one of the three
pointers, and of the other two blocks one has a time at most that of the returned block and
the other a time at least it. -/
theorem getSuitableBlock_median (node p g : CBlockIndex) (rest : BlockPtr)
    (h : node.nHeight ≥ 3) :
    ∃ r, GetSuitableBlock (node :: p :: g :: rest) = .ok r ∧
      ((r = node :: p :: g :: rest ∧
          ((p.nTime ≤ node.nTime ∧ node.nTime ≤ g.nTime) ∨
            (g.nTime ≤ node.nTime ∧ node.nTime ≤ p.nTime))) ∨
        (r = p :: g :: rest ∧
          ((node.nTime ≤ p.nTime ∧ p.nTime ≤ g.nTime) ∨
            (g.nTime ≤ p.nTime ∧ p.nTime ≤ node.nTime))) ∨
        (r = g :: rest ∧
          ((node.nTime ≤ g.nTime ∧ g.nTime ≤ p.nTime) ∨
            (p.nTime ≤ g.nTime ∧ g.nTime ≤ node.nTime)))) := by
  have h3 : ¬ ¬ (node.nHeight ≥ 3) := not_not.2 h
  simp only [GetSuitableBlock, deref, pprev, ok_bind, h3, if_false, swapIfLater]
  split_ifs <;> simp only [ok_bind, deref] <;>
    split_ifs <;> simp only [ok_bind, deref] <;>
    split_ifs <;> simp only [ok_bind, deref] <;>
    refine ⟨_, rfl, ?_⟩ <;>
    first
      | (left; exact ⟨rfl, by omega⟩)
      | (right; left; exact ⟨rfl, by omega⟩)
      | (right; right; exact ⟨rfl, by omega⟩)

/-- Witness of C7: with times 5 (grandparent), 1 (parent) and 9 (node) the grandparent is
returned. -/
theorem getSuitableBlock_median_witness :
    GetSuitableBlock [⟨3, 9, 0, 0⟩, ⟨2, 1, 0, 0⟩, ⟨1, 5, 0, 0⟩, ⟨0, 0, 0, 0⟩] =
        .ok [⟨1, 5, 0, 0⟩, ⟨0, 0, 0, 0⟩] ∧
      ∃ r, GetSuitableBlock [⟨3, 9, 0, 0⟩, ⟨2, 1, 0, 0⟩, ⟨1, 5, 0, 0⟩, ⟨0, 0, 0, 0⟩] = .ok r ∧
      ((r = [⟨3, 9, 0, 0⟩, ⟨2, 1, 0, 0⟩, ⟨1, 5, 0, 0⟩, ⟨0, 0, 0, 0⟩] ∧
          (((1 : Nat) ≤ 9 ∧ (9 : Nat) ≤ 5) ∨ ((5 : Nat) ≤ 9 ∧ (9 : Nat) ≤ 1))) ∨
        (r = [⟨2, 1, 0, 0⟩, ⟨1, 5, 0, 0⟩, ⟨0, 0, 0, 0⟩] ∧
          (((9 : Nat) ≤ 1 ∧ (1 : Nat) ≤ 5) ∨ ((5 : Nat) ≤ 1 ∧ (1 : Nat) ≤ 9))) ∨
        (r = [⟨1, 5, 0, 0⟩, ⟨0, 0, 0, 0⟩] ∧
          (((9 : Nat) ≤ 5 ∧ (5 : Nat) ≤ 1) ∨ ((1 : Nat) ≤ 5 ∧ (5 : Nat) ≤ 9)))) :=
  ⟨rfl, getSuitableBlock_median ⟨3, 9, 0, 0⟩ ⟨2, 1, 0, 0⟩ ⟨1, 5, 0, 0⟩ [⟨0, 0, 0, 0⟩]
    (by decide)⟩

/-! ## Auxiliary lemmas: 256-bit operations as integer arithmetic -/

theorem toU64_of_nonneg (x : Int) (hx : 0 ≤ x) : (toU64 x : Int) = x := by
  simp [toU64, hx]

theorem sub_mod_cast (a b U : Nat) (hU : 0 < U) :
    (((a % U + (U - b % U)) % U : Nat) : Int) = ((a : Int) - (b : Int)) % (U : Int) := by
  have hb : b % U ≤ U := le_of_lt (Nat.mod_lt _ hU)
  rw [Int.sub_emod]
  push_cast [Nat.cast_sub hb]
  have : ((a : Int) % U + (U - (b : Int) % U)) = ((a : Int) % U - (b : Int) % U) + 1 * U := by
    ring
  rw [this, Int.add_mul_emod_self]

theorem mul_mod_cast (x U : Nat) (y s : Int) (n : Nat) (hs : (n : Int) = s)
    (hx : (x : Int) = y % (U : Int)) :
    (((x * n) % U : Nat) : Int) = (y * s) % (U : Int) := by
  push_cast
  rw [hs, hx, Int.mul_emod, Int.emod_emod_of_dvd _ (dvd_refl _), ← Int.mul_emod]

theorem sub256_cast (a b : Nat) :
    ((sub256 a b : Nat) : Int) = ((a : Int) - (b : Int)) % 2 ^ 256 := by
  have := sub_mod_cast a b (2 ^ 256) (Nat.two_pow_pos _)
  simpa [sub256, U256] using this

theorem mulScalar_cast (x : Nat) (y s : Int) (hs : 0 ≤ s) (hx : (x : Int) = y % 2 ^ 256) :
    ((mulScalar x s : Nat) : Int) = (y * s) % 2 ^ 256 := by
  have := mul_mod_cast x (2 ^ 256) y s (toU64 s) (toU64_of_nonneg s hs) (by simpa using hx)
  simpa [mulScalar, U256] using this

theorem neg256_div (w : Nat) (hw : 1 ≤ w) (hlt : w < 2 ^ 256) :
    neg256 w / w = 2 ^ 256 / w - 1 ∧ 2 ^ 256 / w - 1 = (2 ^ 256 - w) / w := by
  have h1 : neg256 w = 2 ^ 256 - w := by
    unfold neg256 U256
    rw [Nat.mod_eq_of_lt hlt, Nat.mod_eq_of_lt (by omega)]
  have h2 : (2 ^ 256 - w) / w = 2 ^ 256 / w - 1 := by
    have := Nat.sub_mul_div (2 ^ 256) w 1 (by omega)
    rwa [Nat.mul_one] at this
  rw [h1, h2]
  exact ⟨rfl, rfl⟩

theorem mulScalar_lt (x : Nat) (s : Int) : mulScalar x s < 2 ^ 256 :=
  Nat.mod_lt _ (by norm_num [U256])

/-- The steps of `ComputeTarget` in terms of the quantities of the specification. -/
theorem computeTarget_spec (params : Params) (first last : CBlockIndex) (pf pl : BlockPtr)
    (hh : last.nHeight > first.nHeight) (hS : 0 < params.nPowTargetSpacing) :
    ∃ W : Nat, (W : Int) = specWork first last params ∧ W < 2 ^ 256 ∧
      ComputeTarget (first :: pf) (last :: pl) params = div256 (neg256 W) W := by
  have hts : (if (last.nTime : Int) - (first.nTime : Int) > 288 * params.nPowTargetSpacing then
        288 * params.nPowTargetSpacing
      else if (last.nTime : Int) - (first.nTime : Int) < 72 * params.nPowTargetSpacing then
        72 * params.nPowTargetSpacing
      else (last.nTime : Int) - (first.nTime : Int)) = specTimespan first last params := by
    simp only [specTimespan, max_def, min_def]
    split_ifs <;> omega
  have hpos : 0 < specTimespan first last params := by
    have : 72 * params.nPowTargetSpacing ≤ specTimespan first last params := le_max_left _ _
    omega
  have hu : (toU64 (specTimespan first last params) : Int) = specTimespan first last params :=
    toU64_of_nonneg _ (le_of_lt hpos)
  have hne : toU64 (specTimespan first last params) ≠ 0 := by
    intro h0
    rw [h0] at hu
    simp at hu
    omega
  have hw := mulScalar_cast (sub256 last.nChainWork first.nChainWork)
    ((last.nChainWork : Int) - (first.nChainWork : Int)) params.nPowTargetSpacing
    (le_of_lt hS) (sub256_cast _ _)
  refine ⟨mulScalar (sub256 last.nChainWork first.nChainWork) params.nPowTargetSpacing /
    toU64 (specTimespan first last params), ?_, ?_, ?_⟩
  · rw [Int.natCast_div, hw, hu]
    rfl
  · exact lt_of_le_of_lt (Nat.div_le_self _ _) (mulScalar_lt _ _)
  · have h1 : ¬ ¬ (last.nHeight > first.nHeight) := not_not.2 hh
    simp only [ComputeTarget, deref, ok_bind, h1, if_false, hts]
    simp only [div256, hne, if_false, ok_bind]

/-- C8. `ComputeTarget` equals `floor(2 ^ 256 / W) - 1` in exact integers: for blocks with
`last.nHeight > first.nHeight` and a positive spacing, with `W` the scaled work of the
specification (chain-work difference times spacing, modulo `2 ^ 256`, divided by the
timespan clamped to `[72, 288]` spacings), whenever `W ≥ 1` the value returned by the
wraparound expression `(-W) / W` is `floor(2 ^ 256 / W) - 1 = floor((2 ^ 256 - W) / W)`. -/
theorem computeTarget_eq_floor (params : Params) (first last : CBlockIndex) (pf pl : BlockPtr)
    (hh : last.nHeight > first.nHeight) (hS : 0 < params.nPowTargetSpacing)
    (hW : 1 ≤ specWork first last params) :
    ∃ W : Nat, (W : Int) = specWork first last params ∧
      ComputeTarget (first :: pf) (last :: pl) params = .ok (2 ^ 256 / W - 1) ∧
      2 ^ 256 / W - 1 = (2 ^ 256 - W) / W := by
  obtain ⟨W, hWs, hlt, hC⟩ := computeTarget_spec params first last pf pl hh hS
  have hW1 : 1 ≤ W := by
    rw [← hWs] at hW
    exact_mod_cast hW
  obtain ⟨h1, h2⟩ := neg256_div W hW1 hlt
  refine ⟨W, hWs, ?_, h2⟩
  have hne : W ≠ 0 := by omega
  rw [hC]
  simp only [div256, hne, if_false, h1]

/-- Witness of C8: a window of 144 blocks of `easyChain` (chain work 288, 187200 seconds
clamped to 172800) has `W = 1` and the target `2 ^ 256 - 1`. -/
theorem computeTarget_eq_floor_witness :
    ComputeTarget (easyChain 2) (easyChain 146) easyParams = .ok (2 ^ 256 - 1) ∧
    ∃ W : Nat, (W : Int) = specWork (easyBlock 2) (easyBlock 146) easyParams ∧
      ComputeTarget (easyChain 2) (easyChain 146) easyParams = .ok (2 ^ 256 / W - 1) ∧
      2 ^ 256 / W - 1 = (2 ^ 256 - W) / W :=
  ⟨rfl, computeTarget_eq_floor easyParams (easyBlock 2) (easyBlock 146) (easyChain 1)
    (easyChain 145) (by decide) (by decide)
    (by simp [specWork, specTimespan, easyBlock, easyParams])⟩

/-! ## Auxiliary lemmas: the divisions by the spacing and by the interval -/

/-- An interval that is not zero comes from a spacing that is not zero. -/
theorem spacing_ne_zero_of_interval_ne_zero (params : Params)
    (h : params.DifficultyAdjustmentInterval ≠ 0) : params.nPowTargetSpacing ≠ 0 := by
  intro h0
  apply h
  unfold Params.DifficultyAdjustmentInterval
  rw [h0, Int.tdiv_zero]

/-- With an interval that is not zero neither division of line 36 has a zero divisor. -/
theorem no_zero_divisor (params : Params) (h : params.DifficultyAdjustmentInterval ≠ 0) :
    ¬ (params.nPowTargetSpacing = 0 ∨ params.DifficultyAdjustmentInterval = 0) := by
  intro hz
  rcases hz with hz | hz
  · exact spacing_ne_zero_of_interval_ne_zero params h hz
  · exact h hz

/-- With a zero divisor on line 36 the call fails, whatever the other parameters, once
the tests of lines 22 to 31 are passed. -/
theorem getNextWorkRequired_zero_divisor (params : Params) (last : CBlockIndex)
    (prev : BlockPtr) (pblock : CBlockHeader)
    (hnr : params.fPowNoRetargeting = false)
    (hdaa : IsDAAEnabled params (last :: prev) = false)
    (hz : params.nPowTargetSpacing = 0 ∨ params.DifficultyAdjustmentInterval = 0) :
    GetNextWorkRequired (last :: prev) pblock params = .error .divByZero := by
  have hne : ¬ (last :: prev = []) := by simp
  simp only [GetNextWorkRequired, deref, ok_bind, hne, if_false, hnr, hdaa,
    Bool.false_eq_true, hz, if_true]

/-! ## Auxiliary lemmas: well-formed chains -/

theorem goBack_eq_drop : ∀ (n : Nat) (p : BlockPtr), goBack n p = p.drop n
  | 0, p => rfl
  | _ + 1, [] => rfl
  | n + 1, _ :: prev => by simp [goBack, goBack_eq_drop n prev]

theorem wellFormed_drop : ∀ (n : Nat) (p : BlockPtr), WellFormed p → WellFormed (p.drop n)
  | 0, p, h => h
  | _ + 1, [], _ => trivial
  | n + 1, _ :: prev, h => by
    simpa using wellFormed_drop n prev h.2

theorem wellFormed_height (b : CBlockIndex) (prev : BlockPtr) (h : WellFormed (b :: prev)) :
    b.nHeight = (prev.length : Int) := h.1

/-- In a well-formed chain the pointer reached after `n` parent links, for `n` at most the
height, is a block of height `nHeight - n`. -/
theorem drop_wellFormed (last : CBlockIndex) (prev : BlockPtr) (n : Nat)
    (hwf : WellFormed (last :: prev)) (hn : (n : Int) ≤ last.nHeight) :
    ∃ first rest, (last :: prev).drop n = first :: rest ∧ WellFormed (first :: rest) ∧
      first.nHeight = last.nHeight - n := by
  have hh := wellFormed_height last prev hwf
  have hlen : ((last :: prev).drop n).length = prev.length + 1 - n := by simp
  have hwd := wellFormed_drop n _ hwf
  cases hd : (last :: prev).drop n with
  | nil =>
    rw [hd] at hlen
    simp at hlen
    omega
  | cons first rest =>
    rw [hd] at hlen hwd
    refine ⟨first, rest, rfl, hwd, ?_⟩
    have := wellFormed_height first rest hwd
    simp at hlen
    omega

theorem getAncestor_wellFormed (last : CBlockIndex) (prev : BlockPtr) (height : Int)
    (h0 : 0 ≤ height) (hh : height ≤ last.nHeight) :
    GetAncestor (last :: prev) height =
      .ok ((last :: prev).drop (last.nHeight - height).toNat) := by
  have hc : ¬ (height > last.nHeight ∨ height < 0) := by omega
  simp only [GetAncestor, deref, ok_bind, hc, if_false]

theorem easyChain_length : ∀ h : Nat, (easyChain h).length = h + 1
  | 0 => rfl
  | h + 1 => by simp [easyChain, easyChain_length h]

theorem easyChain_wellFormed : ∀ h : Nat, WellFormed (easyChain h)
  | 0 => ⟨rfl, trivial⟩
  | h + 1 => ⟨by simp [easyBlock, easyChain_length h], easyChain_wellFormed h⟩


/-- In a well-formed chain `GetSuitableBlock` succeeds on every node of height at least 3
and selects a block at most two below the node. -/
theorem getSuitableBlock_wellFormed (node : CBlockIndex) (prev : BlockPtr)
    (hwf : WellFormed (node :: prev)) (h3 : node.nHeight ≥ 3) :
    ∃ r pr, GetSuitableBlock (node :: prev) = .ok (r :: pr) ∧
      node.nHeight - 2 ≤ r.nHeight ∧ r.nHeight ≤ node.nHeight := by
  have hn := wellFormed_height node prev hwf
  match prev, hwf, hn with
  | [], _, hn => simp at hn; omega
  | [_], _, hn => simp at hn; omega
  | p :: g :: rest, hwf, hn =>
    have hp := wellFormed_height p _ hwf.2
    have hg := wellFormed_height g _ hwf.2.2
    simp only [List.length_cons] at hn hp
    push_cast at hn hp
    have h3n : ¬ ¬ (node.nHeight ≥ 3) := not_not.2 h3
    simp only [GetSuitableBlock, deref, pprev, ok_bind, h3n, if_false, swapIfLater]
    split_ifs <;> simp only [ok_bind, deref] <;>
      split_ifs <;> simp only [ok_bind, deref] <;>
      split_ifs <;> simp only [ok_bind, deref] <;>
      exact ⟨_, _, rfl, by omega, by omega⟩

theorem toU32_of_nonneg (x : Int) (hx : 0 ≤ x) : (toU32 x : Int) = x := by
  simp [toU32, hx]

/-- The height of the start of the window, as `GetNextCashWorkRequired` computes it with
unsigned 32-bit arithmetic and passes it to `GetAncestor`. -/
theorem heightFirst_eq (h : Int) (h144 : 144 ≤ h) (h31 : h < 2 ^ 31) :
    toInt32 ((toU32 h + (2 ^ 32 - 144)) % 2 ^ 32) = h - 144 := by
  have hu := toU32_of_nonneg h (by omega)
  have hlt : (toU32 h + (2 ^ 32 - 144)) % 2 ^ 32 = toU32 h - 144 := by omega
  have h2 : toU32 h - 144 < 2 ^ 31 := by omega
  rw [hlt]
  unfold toInt32
  rw [if_pos h2]
  omega

/-- C9, amended. In a well-formed chain, with a positive spacing and a previous node whose
height is at least the adjustment interval, at least 147 and a C++ `int`: both calls of
`GetSuitableBlock` succeed, the ancestor 144 blocks below exists, the selected last block is
above the selected first block, and `GetNextCashWorkRequired` returns a compact target
whenever the scaled work `W` of the two selected blocks is at least 1. -/
theorem getNextCashWork_returns (params : Params) (prev : CBlockIndex) (rest : BlockPtr)
    (pblock : CBlockHeader) (hwf : WellFormed (prev :: rest))
    (hS : 0 < params.nPowTargetSpacing)
    (hI : prev.nHeight ≥ params.DifficultyAdjustmentInterval)
    (h147 : 147 ≤ prev.nHeight) (h31 : prev.nHeight < 2 ^ 31) :
    ∃ last pl anc first pf,
      GetSuitableBlock (prev :: rest) = .ok (last :: pl) ∧
      GetAncestor (prev :: rest) (prev.nHeight - 144) = .ok anc ∧
      GetSuitableBlock anc = .ok (first :: pf) ∧
      last.nHeight > first.nHeight ∧
      (1 ≤ specWork first last params →
        ∃ nBits, GetNextCashWorkRequired (prev :: rest) pblock params = .ok nBits) := by
  obtain ⟨last, pl, hl, hl1, hl2⟩ := getSuitableBlock_wellFormed prev rest hwf (by omega)
  obtain ⟨a0, arest, hd, hawf, hah⟩ := drop_wellFormed prev rest 144 hwf (by omega)
  have hanc : GetAncestor (prev :: rest) (prev.nHeight - 144) = .ok (a0 :: arest) := by
    rw [getAncestor_wellFormed prev rest _ (by omega) (by omega)]
    have : (prev.nHeight - (prev.nHeight - 144)).toNat = 144 := by
      have : prev.nHeight - (prev.nHeight - 144) = 144 := by omega
      rw [this]; rfl
    rw [this, hd]
  obtain ⟨first, pf, hf, hf1, hf2⟩ := getSuitableBlock_wellFormed a0 arest hawf (by omega)
  have hgt : last.nHeight > first.nHeight := by
    push_cast at hah
    omega
  refine ⟨last, pl, a0 :: arest, first, pf, hl, hanc, hf, hgt, ?_⟩
  intro hW
  obtain ⟨W, hWs, hlt, hC⟩ := computeTarget_spec params first last pf pl hgt hS
  have hW1 : W ≠ 0 := by
    rw [← hWs] at hW
    have : (1 : Int) ≤ (W : Int) := hW
    omega
  have hu := toU32_of_nonneg prev.nHeight (by omega)
  have hassert : ¬ ¬ ((toU32 prev.nHeight : Int) ≥ params.DifficultyAdjustmentInterval) := by
    rw [hu]; exact not_not.2 hI
  have hhf := heightFirst_eq prev.nHeight (by omega) h31
  unfold GetNextCashWorkRequired
  simp only
  by_cases he : (params.fPowAllowMinDifficultyBlocks &&
      decide (pblock.GetBlockTime > prev.GetBlockTime + 2 * params.nPowTargetSpacing)) = true
  · rw [if_pos he]
    exact ⟨_, rfl⟩
  · have h1 : ¬ (last :: pl = []) := by simp
    have h2 : ¬ (first :: pf = []) := by simp
    have hS0 : ¬ (params.nPowTargetSpacing = 0) := by omega
    rw [if_neg he, if_neg hS0, if_neg hassert]
    simp only [hl, ok_bind, hhf, hanc, hf, hC, div256, hW1, h1, h2, if_false]
    split_ifs <;> exact ⟨_, rfl⟩

theorem stalledChain_wellFormed : WellFormed stalledChain :=
  ⟨by simp [easyChain_length], by simp [easyChain_length], easyChain_wellFormed 2016⟩

/-- C9, counterexample. The stated precondition does not make `GetNextCashWorkRequired`
total. With an adjustment interval of 146 blocks and a previous node of height 146 the
ancestor 144 blocks below has height 2 and the assertion `nHeight >= 3` of
`GetSuitableBlock` fails. With an interval of 2016 blocks and the chain `stalledChain`
(previous node of height 2018, chain work 2 per block) the selected blocks are 143 blocks
apart, the scaled work is `286 * 600 / 172800 = 0` and the division `(-work) / work` is a
division by zero. Both chains are well formed, the spacing is positive and the height is at
least the interval. -/
theorem getNextCashWork_not_total :
    (WellFormed (easyChain 146) ∧ 0 < shortIntervalParams.nPowTargetSpacing ∧
      (easyBlock 146).nHeight ≥ shortIntervalParams.DifficultyAdjustmentInterval ∧
      GetNextCashWorkRequired (easyChain 146) ⟨1000000 + 1300 * 147⟩ shortIntervalParams =
        .error .assertFail) ∧
    (WellFormed stalledChain ∧ 0 < easyParams.nPowTargetSpacing ∧
      (2018 : Int) ≥ easyParams.DifficultyAdjustmentInterval ∧
      GetNextCashWorkRequired stalledChain ⟨1000000 + 1300 * 2019⟩ easyParams =
        .error .divByZero) :=
  ⟨⟨easyChain_wellFormed 146, by decide, by decide, rfl⟩,
   ⟨stalledChain_wellFormed, by decide, by decide, rfl⟩⟩

/-- Witness of C9 as amended: the chain `easyChain 2016` with an interval of 2016 blocks;
the call returns `0x207fffff`. -/
theorem getNextCashWork_returns_witness :
    GetNextCashWorkRequired (easyChain 2016) ⟨1000000 + 1300 * 2017⟩ easyParams =
      .ok 0x207fffff ∧
    ∃ last pl anc first pf,
      GetSuitableBlock (easyChain 2016) = .ok (last :: pl) ∧
      GetAncestor (easyChain 2016) ((easyBlock 2016).nHeight - 144) = .ok anc ∧
      GetSuitableBlock anc = .ok (first :: pf) ∧
      last.nHeight > first.nHeight ∧
      (1 ≤ specWork first last easyParams →
        ∃ nBits, GetNextCashWorkRequired (easyChain 2016) ⟨1000000 + 1300 * 2017⟩ easyParams =
          .ok nBits) :=
  ⟨rfl, getNextCashWork_returns easyParams (easyBlock 2016) (easyChain 2015)
    ⟨1000000 + 1300 * 2017⟩ (easyChain_wellFormed 2016) (by decide) (by decide) (by decide)
    (by decide)⟩

/-- Number of blocks a retarget at a boundary goes back is at most the height. -/
theorem blockstogoback_le (h d : Int) (h0 : 0 ≤ h) (hd : 1 ≤ d) (hb : (h + 1) % d = 0) :
    0 ≤ (if h + 1 ≠ d then d else d - 1) ∧ (if h + 1 ≠ d then d else d - 1) ≤ h := by
  split_ifs with hne
  · obtain ⟨q, hq⟩ := Int.dvd_of_emod_eq_zero hb
    have hq2 : 2 ≤ q := by
      by_contra hlt
      have hq1 : q ≤ 1 := by omega
      rcases le_or_lt q 0 with hq0 | hq0
      · have : d * q ≤ 0 := Int.mul_nonpos_of_nonneg_of_nonpos (by omega) hq0
        omega
      · have : q = 1 := by omega
        subst this
        omega
    have : d * 2 ≤ d * q := Int.mul_le_mul_of_nonneg_left hq2 (by omega)
    omega
  · omega

/-- C10. At a legacy retarget boundary the first block of the period is found and used: in
a well-formed chain, with an interval of at least 1, retargeting enabled and the continuous
algorithm inactive, when `(h + 1) mod interval = 0` for the height `h` of the previous
node, the ancestor at height `F` exists, where `F = 0` when `h + 1 = interval` and
`F = h - interval` otherwise, and `GetNextWorkRequired` equals `CalculateNextWorkRequired`
called with the time of that ancestor. The missing-ancestor assertion is not reached. -/
theorem getNextWorkRequired_boundary (params : Params) (last : CBlockIndex) (prev : BlockPtr)
    (pblock : CBlockHeader) (hwf : WellFormed (last :: prev))
    (hI : 1 ≤ params.DifficultyAdjustmentInterval)
    (hnr : params.fPowNoRetargeting = false)
    (hdaa : IsDAAEnabled params (last :: prev) = false)
    (hb : (last.nHeight + 1) % params.DifficultyAdjustmentInterval = 0) :
    ∃ first rest,
      GetAncestor (last :: prev)
        (if last.nHeight + 1 = params.DifficultyAdjustmentInterval then 0
          else last.nHeight - params.DifficultyAdjustmentInterval) = .ok (first :: rest) ∧
      first.nHeight = (if last.nHeight + 1 = params.DifficultyAdjustmentInterval then 0
          else last.nHeight - params.DifficultyAdjustmentInterval) ∧
      GetNextWorkRequired (last :: prev) pblock params =
        CalculateNextWorkRequired (last :: prev) first.GetBlockTime params := by
  have hh := wellFormed_height last prev hwf
  have h0 : 0 ≤ last.nHeight := by omega
  obtain ⟨hB0, hBh⟩ := blockstogoback_le last.nHeight _ h0 hI hb
  generalize hB : (if last.nHeight + 1 ≠ params.DifficultyAdjustmentInterval then
    params.DifficultyAdjustmentInterval else params.DifficultyAdjustmentInterval - 1) = B
    at hB0 hBh
  have hF : (if last.nHeight + 1 = params.DifficultyAdjustmentInterval then 0
      else last.nHeight - params.DifficultyAdjustmentInterval) = last.nHeight - B := by
    rw [← hB]
    split_ifs <;> omega
  obtain ⟨first, rest, hd, -, hfh⟩ :=
    drop_wellFormed last prev B.toNat hwf (by omega)
  refine ⟨first, rest, ?_, ?_, ?_⟩
  · rw [hF, getAncestor_wellFormed last prev _ (by omega) (by omega)]
    have : (last.nHeight - (last.nHeight - B)).toNat = B.toNat := by
      congr 1; omega
    rw [this, hd]
  · rw [hF, hfh]; omega
  · have hmod : ¬ ((last.nHeight + 1).tmod params.DifficultyAdjustmentInterval ≠ 0) := by
      rw [Int.tmod_eq_emod (by omega) (by omega)]
      simpa using hb
    have hne : ¬ (last :: prev = []) := by simp
    have hz := no_zero_divisor params (by omega)
    simp only [GetNextWorkRequired, deref, ok_bind, hne, if_false, hnr, hdaa, hmod, hz,
      Bool.false_eq_true, hB, goBack_eq_drop, hd]

/-- Witness of C10: the first retarget of `easyChain`, at height 2015, uses the time of the
genesis block. -/
theorem getNextWorkRequired_boundary_witness :
    ∃ first rest,
      GetAncestor (easyChain 2015)
        (if (2015 : Int) + 1 = easyParams.DifficultyAdjustmentInterval then 0
          else 2015 - easyParams.DifficultyAdjustmentInterval) = .ok (first :: rest) ∧
      first.nHeight = (if (2015 : Int) + 1 = easyParams.DifficultyAdjustmentInterval then 0
          else 2015 - easyParams.DifficultyAdjustmentInterval) ∧
      GetNextWorkRequired (easyChain 2015) ⟨0⟩ easyParams =
        CalculateNextWorkRequired (easyChain 2015) first.GetBlockTime easyParams :=
  getNextWorkRequired_boundary easyParams (easyBlock 2015) (easyChain 2014) ⟨0⟩
    (easyChain_wellFormed 2015) (by decide) rfl rfl (by decide)

/-! ## Auxiliary lemmas: the branches of `GetNextWorkRequired` -/

theorem tmod_ne_zero_of_emod_ne_zero (a b : Int) (h : a % b ≠ 0) : a.tmod b ≠ 0 :=
  fun h0 => h (Int.emod_eq_zero_of_dvd (Int.dvd_of_tmod_eq_zero h0))

theorem emod_eq_zero_of_tmod_eq_zero (a b : Int) (h : a.tmod b = 0) : a % b = 0 :=
  Int.emod_eq_zero_of_dvd (Int.dvd_of_tmod_eq_zero h)

theorem inForkWindow_eq_false (params : Params) (h : Int)
    (hw : ¬ (params.LCHHeight ≤ h ∧ h ≤ params.LCHHeight + params.LCHInitBlockCount)) :
    inForkWindow params h = false := by
  simp only [inForkWindow, ge_iff_le, Bool.and_eq_false_iff, decide_eq_false_iff_not]
  by_cases h1 : params.LCHHeight ≤ h
  · right; exact fun h2 => hw ⟨h1, h2⟩
  · left; exact h1

theorem inForkWindow_eq_true (params : Params) (h : Int)
    (hw : params.LCHHeight ≤ h ∧ h ≤ params.LCHHeight + params.LCHInitBlockCount) :
    inForkWindow params h = true := by
  simp only [inForkWindow, ge_iff_le, Bool.and_eq_true, decide_eq_true_eq]
  exact hw

/-- Off a boundary, with the continuous algorithm inactive, retargeting enabled and an
interval that is not zero, `GetNextWorkRequired` is the chain of special rules of lines 38
to 70. -/
theorem getNextWorkRequired_offBoundary (params : Params) (last : CBlockIndex)
    (prev : BlockPtr) (pblock : CBlockHeader)
    (hnr : params.fPowNoRetargeting = false)
    (hdaa : IsDAAEnabled params (last :: prev) = false)
    (hI : params.DifficultyAdjustmentInterval ≠ 0)
    (hb : (last.nHeight + 1) % params.DifficultyAdjustmentInterval ≠ 0) :
    GetNextWorkRequired (last :: prev) pblock params =
      if params.fPowAllowMinDifficultyBlocks then
        if pblock.GetBlockTime > last.GetBlockTime + params.nPowTargetSpacing * 2 then
          .ok (GetCompact (UintToArith256 params.powLimit))
        else
          lastNonMinDifficultyBits params.DifficultyAdjustmentInterval
            (GetCompact (UintToArith256 params.powLimit)) (last :: prev)
      else if inForkWindow params last.nHeight then
        .ok (GetCompact (UintToArith256 params.powLimitFork))
      else if last.nHeight ≥ 1506585 ∧ last.nHeight ≤
          params.LCHHeight + params.LCHInitBlockCount + params.DifficultyAdjustmentInterval then
        .ok (GetCompact (SetCompact 0x1aa8946b).value)
      else .ok last.nBits := by
  have hmod := tmod_ne_zero_of_emod_ne_zero _ _ hb
  have hne : ¬ (last :: prev = []) := by simp
  have hz := no_zero_divisor params hI
  simp only [GetNextWorkRequired, deref, ok_bind, hne, if_false, hnr, hdaa, hmod, hz,
    Bool.false_eq_true, ne_eq, not_false_eq_true, if_true]

/-- In the fork window `CalculateNextWorkRequired` returns the compact form of
`powLimitFork` for every first-block time. -/
theorem calculateNextWork_inForkWindow (params : Params) (last : CBlockIndex)
    (prev : BlockPtr) (f : Int) (hw : inForkWindow params last.nHeight = true) :
    CalculateNextWorkRequired (last :: prev) f params =
      .ok (GetCompact (UintToArith256 params.powLimitFork)) := by
  simp only [CalculateNextWorkRequired, deref, ok_bind, hw, if_true]

/-- At a boundary of a well-formed chain the loop that goes back to the first block of the
period ends on a block. -/
theorem goBack_boundary (params : Params) (last : CBlockIndex) (prev : BlockPtr)
    (hwf : WellFormed (last :: prev)) (hI : 1 ≤ params.DifficultyAdjustmentInterval)
    (hb : (last.nHeight + 1) % params.DifficultyAdjustmentInterval = 0) :
    ∃ first rest,
      goBack (if last.nHeight + 1 ≠ params.DifficultyAdjustmentInterval then
          params.DifficultyAdjustmentInterval
        else params.DifficultyAdjustmentInterval - 1).toNat (last :: prev) = first :: rest := by
  have hh := wellFormed_height last prev hwf
  obtain ⟨hB0, hBh⟩ := blockstogoback_le last.nHeight _ (by omega) hI hb
  obtain ⟨first, rest, hd, -, -⟩ := drop_wellFormed last prev _ hwf
    (by rw [Int.toNat_of_nonneg hB0]; exact hBh)
  exact ⟨first, rest, by rw [goBack_eq_drop, hd]⟩

/-- On a well-formed chain the walk over min-difficulty blocks ends on the nearest node
whose height is a multiple of the interval or whose bits differ from the limit. -/
theorem lastNonMinDifficultyBits_spec (I : Int) (L : Nat) :
    ∀ p : BlockPtr, p ≠ [] → WellFormed p →
      ∃ k n rest, p.drop k = n :: rest ∧ lastNonMinDifficultyBits I L p = .ok n.nBits ∧
        (I ∣ n.nHeight ∨ n.nBits ≠ L) ∧
        ∀ j m, j < k → p[j]? = some m → ¬ I ∣ m.nHeight ∧ m.nBits = L
  | [], h, _ => absurd rfl h
  | b :: prev, _, hwf => by
    by_cases hc : prev ≠ [] ∧ b.nHeight.tmod I ≠ 0 ∧ b.nBits = L
    · obtain ⟨k, n, rest, hd, hr, hn, hall⟩ := lastNonMinDifficultyBits_spec I L prev hc.1 hwf.2
      refine ⟨k + 1, n, rest, by simpa using hd, ?_, hn, ?_⟩
      · rw [lastNonMinDifficultyBits, if_pos hc, hr]
      · intro j m hj hm
        cases j with
        | zero =>
          simp only [List.getElem?_cons_zero, Option.some.injEq] at hm
          subst hm
          exact ⟨fun hdvd => hc.2.1 (Int.tmod_eq_zero_of_dvd hdvd), hc.2.2⟩
        | succ j =>
          rw [List.getElem?_cons_succ] at hm
          exact hall j m (by omega) hm
    · refine ⟨0, b, prev, rfl, ?_, ?_, ?_⟩
      · rw [lastNonMinDifficultyBits, if_neg hc]
      · by_cases h1 : prev = []
        · left
          have := wellFormed_height b prev hwf
          rw [h1] at this
          simp only [List.length_nil, Nat.cast_zero] at this
          rw [this]
          exact dvd_zero I
        · by_cases h2 : b.nHeight.tmod I = 0
          · left; exact Int.dvd_of_tmod_eq_zero h2
          · right
            exact fun h3 => hc ⟨h1, h2, h3⟩
      · intro j m hj
        omega

theorem testnetChain_wellFormed : WellFormed testnetChain :=
  ⟨by simp [easyChain_length], by simp [easyChain_length], by simp [easyChain_length],
    by simp [easyChain_length], easyChain_wellFormed 2015⟩

/-! ## The claims on the special rules -/

/-- C11. Test-network min-difficulty rule at a legacy height that is not a boundary: in a
well-formed chain, with the rule on, retargeting enabled, the continuous algorithm inactive,
an interval that is not zero and `(h + 1) mod interval ≠ 0`, `GetNextWorkRequired` returns
the compact form of `powLimit` when the time of the candidate exceeds the time of the
previous node by more than two spacings. Otherwise the walk over the parents ends and returns the bits of the
nearest node `n` from the previous node (included) towards the genesis block whose height
is a multiple of the interval or whose bits differ from the compact form of `powLimit`:
`n` is reached after `k` parent links and each of the `k` nodes walked past has a height
that is not a multiple of the interval and the bits of the limit. -/
theorem getNextWorkRequired_minDifficulty (params : Params) (last : CBlockIndex)
    (prev : BlockPtr) (pblock : CBlockHeader) (hwf : WellFormed (last :: prev))
    (hmin : params.fPowAllowMinDifficultyBlocks = true)
    (hnr : params.fPowNoRetargeting = false)
    (hdaa : IsDAAEnabled params (last :: prev) = false)
    (hI : params.DifficultyAdjustmentInterval ≠ 0)
    (hb : (last.nHeight + 1) % params.DifficultyAdjustmentInterval ≠ 0) :
    (pblock.GetBlockTime > last.GetBlockTime + 2 * params.nPowTargetSpacing →
      GetNextWorkRequired (last :: prev) pblock params =
        .ok (GetCompact (UintToArith256 params.powLimit))) ∧
    (¬ (pblock.GetBlockTime > last.GetBlockTime + 2 * params.nPowTargetSpacing) →
      ∃ k n rest, (last :: prev).drop k = n :: rest ∧
        GetNextWorkRequired (last :: prev) pblock params = .ok n.nBits ∧
        (params.DifficultyAdjustmentInterval ∣ n.nHeight ∨
          n.nBits ≠ GetCompact (UintToArith256 params.powLimit)) ∧
        ∀ j m, j < k → (last :: prev)[j]? = some m →
          ¬ params.DifficultyAdjustmentInterval ∣ m.nHeight ∧
            m.nBits = GetCompact (UintToArith256 params.powLimit)) := by
  have hG := getNextWorkRequired_offBoundary params last prev pblock hnr hdaa hI hb
  rw [hmin] at hG
  simp only [if_true] at hG
  constructor
  · intro ht
    have ht2 : pblock.GetBlockTime > last.GetBlockTime + params.nPowTargetSpacing * 2 := by
      omega
    rw [hG, if_pos ht2]
  · intro ht
    have ht2 : ¬ (pblock.GetBlockTime > last.GetBlockTime + params.nPowTargetSpacing * 2) := by
      omega
    rw [hG, if_neg ht2]
    exact lastNonMinDifficultyBits_spec _ _ (last :: prev) (by simp) hwf

/-- Witness of C11: on `testnetChain` a candidate 3000 seconds after the previous node gets
the limit `0x207fffff`; a candidate 600 seconds after it gets `0x1f00ffff`, the bits of the
block of height 2016 reached past three min-difficulty blocks. -/
theorem getNextWorkRequired_minDifficulty_witness :
    GetNextWorkRequired testnetChain ⟨1000000 + 1300 * 2019 + 3000⟩ testnetParams =
        .ok 0x207fffff ∧
    GetNextWorkRequired testnetChain ⟨1000000 + 1300 * 2019 + 600⟩ testnetParams =
        .ok 0x1f00ffff ∧
    (GetNextWorkRequired testnetChain ⟨1000000 + 1300 * 2019 + 3000⟩ testnetParams =
        .ok (GetCompact (UintToArith256 testnetParams.powLimit))) ∧
    (∃ k n rest, testnetChain.drop k = n :: rest ∧
        GetNextWorkRequired testnetChain ⟨1000000 + 1300 * 2019 + 600⟩ testnetParams =
          .ok n.nBits ∧
        (testnetParams.DifficultyAdjustmentInterval ∣ n.nHeight ∨
          n.nBits ≠ GetCompact (UintToArith256 testnetParams.powLimit)) ∧
        ∀ j m, j < k → testnetChain[j]? = some m →
          ¬ testnetParams.DifficultyAdjustmentInterval ∣ m.nHeight ∧
            m.nBits = GetCompact (UintToArith256 testnetParams.powLimit)) :=
  ⟨rfl, rfl,
   (getNextWorkRequired_minDifficulty testnetParams _ _
      ⟨1000000 + 1300 * 2019 + 3000⟩ testnetChain_wellFormed rfl rfl rfl (by decide)
      (by decide)).1
      (by decide),
   (getNextWorkRequired_minDifficulty testnetParams _ _
      ⟨1000000 + 1300 * 2019 + 600⟩ testnetChain_wellFormed rfl rfl rfl (by decide)
      (by decide)).2
      (by decide)⟩

/-- Counterexample to C11 as stated, without a condition on the interval: with a period of
100 seconds and a spacing of 600 seconds the interval is 0, so `(h + 1) mod interval` is
`h + 1 = 2020`, which is not 0. Every condition of the claim holds on `testnetChain`, and
the `%` of line 36 divides by zero: the call fails for the late candidate and for the
timely one, and returns neither the limit nor the bits of any node. -/
theorem getNextWorkRequired_minDifficulty_zero_interval :
    WellFormed testnetChain ∧
    zeroIntervalTestnetParams.fPowAllowMinDifficultyBlocks = true ∧
    zeroIntervalTestnetParams.fPowNoRetargeting = false ∧
    IsDAAEnabled zeroIntervalTestnetParams testnetChain = false ∧
    zeroIntervalTestnetParams.DifficultyAdjustmentInterval = 0 ∧
    ((2019 : Int) + 1) % zeroIntervalTestnetParams.DifficultyAdjustmentInterval ≠ 0 ∧
    (⟨1000000 + 1300 * 2019 + 3000⟩ : CBlockHeader).GetBlockTime >
      1000000 + 1300 * 2019 + 2 * zeroIntervalTestnetParams.nPowTargetSpacing ∧
    GetNextWorkRequired testnetChain ⟨1000000 + 1300 * 2019 + 3000⟩
      zeroIntervalTestnetParams = .error .divByZero ∧
    ¬ ((⟨1000000 + 1300 * 2019 + 600⟩ : CBlockHeader).GetBlockTime >
      1000000 + 1300 * 2019 + 2 * zeroIntervalTestnetParams.nPowTargetSpacing) ∧
    GetNextWorkRequired testnetChain ⟨1000000 + 1300 * 2019 + 600⟩
      zeroIntervalTestnetParams = .error .divByZero :=
  ⟨testnetChain_wellFormed, rfl, rfl, rfl, by decide, by decide, by decide, rfl, by decide,
    rfl⟩

/-- C12. Carry-forward between retargets: with retargeting enabled, the test-network rule
off, the continuous algorithm inactive and an interval that is not zero, for a previous node
of height `h` with `(h + 1) mod interval ≠ 0`, outside the fork window and outside the
historical range from 1506585 to `LCHHeight + LCHInitBlockCount + interval`,
`GetNextWorkRequired` returns the bits of the previous node, whatever the times of the node, its ancestors and the header. -/
theorem getNextWorkRequired_carryForward (params : Params) (last : CBlockIndex)
    (prev : BlockPtr) (pblock : CBlockHeader)
    (hnr : params.fPowNoRetargeting = false)
    (hmin : params.fPowAllowMinDifficultyBlocks = false)
    (hdaa : IsDAAEnabled params (last :: prev) = false)
    (hI : params.DifficultyAdjustmentInterval ≠ 0)
    (hb : (last.nHeight + 1) % params.DifficultyAdjustmentInterval ≠ 0)
    (hw : ¬ (params.LCHHeight ≤ last.nHeight ∧
      last.nHeight ≤ params.LCHHeight + params.LCHInitBlockCount))
    (hr : ¬ (1506585 ≤ last.nHeight ∧ last.nHeight ≤
      params.LCHHeight + params.LCHInitBlockCount + params.DifficultyAdjustmentInterval)) :
    GetNextWorkRequired (last :: prev) pblock params = .ok last.nBits := by
  have hfw := inForkWindow_eq_false params last.nHeight hw
  have hr2 : ¬ (last.nHeight ≥ 1506585 ∧ last.nHeight ≤
      params.LCHHeight + params.LCHInitBlockCount + params.DifficultyAdjustmentInterval) := hr
  rw [getNextWorkRequired_offBoundary params last prev pblock hnr hdaa hI hb]
  simp only [hmin, hfw, hr2, Bool.false_eq_true, if_false]

/-- Witness of C12: a node of height 100 of `easyChain`, far from every special range. -/
theorem getNextWorkRequired_carryForward_witness :
    GetNextWorkRequired (easyChain 100) ⟨1000000 + 1300 * 101⟩ easyParams = .ok 0x207fffff :=
  getNextWorkRequired_carryForward easyParams (easyBlock 100) (easyChain 99)
    ⟨1000000 + 1300 * 101⟩ rfl rfl rfl (by decide) (by decide) (by decide) (by decide)

/-- Counterexample to C12 as stated, without a condition on the interval: for the node of
height 100 of `easyChain` every condition of the claim holds under `zeroIntervalParams`
(period 100, spacing 600, interval 0, `101 mod 0 = 101`) and under `zeroSpacingParams`
(spacing 0), and the call does not return the bits of the node: line 36 divides by zero. -/
theorem getNextWorkRequired_carryForward_zero_interval :
    (zeroIntervalParams.fPowNoRetargeting = false ∧
      zeroIntervalParams.fPowAllowMinDifficultyBlocks = false ∧
      IsDAAEnabled zeroIntervalParams (easyChain 100) = false ∧
      zeroIntervalParams.DifficultyAdjustmentInterval = 0 ∧
      ((easyBlock 100).nHeight + 1) % zeroIntervalParams.DifficultyAdjustmentInterval ≠ 0 ∧
      ¬ (zeroIntervalParams.LCHHeight ≤ (easyBlock 100).nHeight ∧ (easyBlock 100).nHeight ≤
        zeroIntervalParams.LCHHeight + zeroIntervalParams.LCHInitBlockCount) ∧
      ¬ (1506585 ≤ (easyBlock 100).nHeight ∧ (easyBlock 100).nHeight ≤
        zeroIntervalParams.LCHHeight + zeroIntervalParams.LCHInitBlockCount +
          zeroIntervalParams.DifficultyAdjustmentInterval) ∧
      GetNextWorkRequired (easyChain 100) ⟨1000000 + 1300 * 101⟩ zeroIntervalParams =
        .error .divByZero ∧
      GetNextWorkRequired (easyChain 100) ⟨1000000 + 1300 * 101⟩ zeroIntervalParams ≠
        .ok (easyBlock 100).nBits) ∧
    (zeroSpacingParams.fPowNoRetargeting = false ∧
      zeroSpacingParams.fPowAllowMinDifficultyBlocks = false ∧
      IsDAAEnabled zeroSpacingParams (easyChain 100) = false ∧
      zeroSpacingParams.nPowTargetSpacing = 0 ∧
      ((easyBlock 100).nHeight + 1) % zeroSpacingParams.DifficultyAdjustmentInterval ≠ 0 ∧
      ¬ (zeroSpacingParams.LCHHeight ≤ (easyBlock 100).nHeight ∧ (easyBlock 100).nHeight ≤
        zeroSpacingParams.LCHHeight + zeroSpacingParams.LCHInitBlockCount) ∧
      ¬ (1506585 ≤ (easyBlock 100).nHeight ∧ (easyBlock 100).nHeight ≤
        zeroSpacingParams.LCHHeight + zeroSpacingParams.LCHInitBlockCount +
          zeroSpacingParams.DifficultyAdjustmentInterval) ∧
      GetNextWorkRequired (easyChain 100) ⟨1000000 + 1300 * 101⟩ zeroSpacingParams =
        .error .divByZero ∧
      GetNextWorkRequired (easyChain 100) ⟨1000000 + 1300 * 101⟩ zeroSpacingParams ≠
        .ok (easyBlock 100).nBits) :=
  ⟨⟨rfl, rfl, rfl, by decide, by decide, by decide, by decide, rfl, by decide⟩,
    ⟨rfl, rfl, rfl, rfl, by decide, by decide, by decide, rfl, by decide⟩⟩

/-- C13. Fork-window pin: in a well-formed chain, with retargeting enabled, the
test-network rule off, the continuous algorithm inactive and an interval of at least 1,
for a previous node whose height lies in `[LCHHeight, LCHHeight + LCHInitBlockCount]`
`GetNextWorkRequired` returns the compact form of `powLimitFork`, at a retarget boundary
as well as off a boundary, and `CalculateNextWorkRequired` returns it for every first-block
time; neither depends on the bits of the node or on any time. -/
theorem getNextWorkRequired_forkWindow (params : Params) (last : CBlockIndex)
    (prev : BlockPtr) (pblock : CBlockHeader) (hwf : WellFormed (last :: prev))
    (hnr : params.fPowNoRetargeting = false)
    (hmin : params.fPowAllowMinDifficultyBlocks = false)
    (hdaa : IsDAAEnabled params (last :: prev) = false)
    (hI : 1 ≤ params.DifficultyAdjustmentInterval)
    (hw : params.LCHHeight ≤ last.nHeight ∧
      last.nHeight ≤ params.LCHHeight + params.LCHInitBlockCount) :
    GetNextWorkRequired (last :: prev) pblock params =
        .ok (GetCompact (UintToArith256 params.powLimitFork)) ∧
      ∀ f : Int, CalculateNextWorkRequired (last :: prev) f params =
        .ok (GetCompact (UintToArith256 params.powLimitFork)) := by
  have hfw := inForkWindow_eq_true params last.nHeight hw
  refine ⟨?_, fun f => calculateNextWork_inForkWindow params last prev f hfw⟩
  by_cases hb : (last.nHeight + 1) % params.DifficultyAdjustmentInterval = 0
  · obtain ⟨first, rest, hg⟩ := goBack_boundary params last prev hwf hI hb
    have hh := wellFormed_height last prev hwf
    have hmod : ¬ ((last.nHeight + 1).tmod params.DifficultyAdjustmentInterval ≠ 0) := by
      rw [Int.tmod_eq_emod (by omega) (by omega)]
      simpa using hb
    have hne : ¬ (last :: prev = []) := by simp
    have hz := no_zero_divisor params (by omega)
    simp only [GetNextWorkRequired, deref, ok_bind, hne, if_false, hnr, hdaa, hmod, hz,
      Bool.false_eq_true, hg]
    exact calculateNextWork_inForkWindow params last prev _ hfw
  · rw [getNextWorkRequired_offBoundary params last prev pblock hnr hdaa (by omega) hb]
    simp only [hmin, hfw, Bool.false_eq_true, if_false, if_true]

/-- Witness of C13: in `easyChain` with the fork window 4000 to 4040, the node of height
4031 is at a boundary and the node of height 4032 is not; both give `0x1e00ffff`, the
compact form of `2 ^ 232 - 1`. -/
theorem getNextWorkRequired_forkWindow_witness :
    GetCompact (UintToArith256 forkParams.powLimitFork) = 0x1e00ffff ∧
    (GetNextWorkRequired (easyChain 4031) ⟨0⟩ forkParams =
        .ok (GetCompact (UintToArith256 forkParams.powLimitFork)) ∧
      ∀ f : Int, CalculateNextWorkRequired (easyChain 4031) f forkParams =
        .ok (GetCompact (UintToArith256 forkParams.powLimitFork))) ∧
    (GetNextWorkRequired (easyChain 4032) ⟨0⟩ forkParams =
        .ok (GetCompact (UintToArith256 forkParams.powLimitFork)) ∧
      ∀ f : Int, CalculateNextWorkRequired (easyChain 4032) f forkParams =
        .ok (GetCompact (UintToArith256 forkParams.powLimitFork))) :=
  ⟨by decide,
   getNextWorkRequired_forkWindow forkParams (easyBlock 4031) (easyChain 4030) ⟨0⟩
      (easyChain_wellFormed 4031) rfl rfl rfl (by decide) (by decide),
   getNextWorkRequired_forkWindow forkParams (easyBlock 4032) (easyChain 4031) ⟨0⟩
      (easyChain_wellFormed 4032) rfl rfl rfl (by decide) (by decide)⟩

/-! ## Auxiliary lemmas: the legacy scaling in exact arithmetic -/

/-- A decoded encoding of bit length 236 is a multiple of 8. -/
theorem decoded_mod8 (t : Nat) (ht : t < 2 ^ 256)
    (h : 2 ^ 235 ≤ (SetCompact (GetCompact t)).value) :
    (SetCompact (GetCompact t)).value % 8 = 0 := by
  rcases decode_encode_form t ht with ⟨h16, hv⟩ | ⟨k, c, hk3, hk32, hc16, hc24, hv, hG⟩
  · rw [hv] at h; omega
  · rw [hv] at h ⊢
    by_cases h3 : k ≤ 3
    · have : k = 3 := by omega
      subst this
      simp at h; omega
    · have : 8 * (k - 3) = (8 * (k - 3) - 3) + 3 := by omega
      rw [this, pow_add, ← Nat.mul_assoc]
      exact Nat.mul_mod_left _ _

/-- With a timespan of a quarter of the period 1209600 the scaling divides by 4. -/
theorem retarget_quarter (x : Nat) (hx : x < 2 ^ 236) (he : 2 ^ 235 ≤ x → x % 8 = 0) :
    retarget x 302400 1209600 = .ok (x / 4) := by
  have hb := bits_le_iff x 235 (by omega)
  have hu : toU64 1209600 = 1209600 := by decide
  have hu2 : toU64 302400 = 302400 := by decide
  have hd : ∀ y : Nat, y < 2 ^ 235 → y * 302400 % 2 ^ 256 / 1209600 = y / 4 := by
    intro y hy
    rw [Nat.mod_eq_of_lt (by omega)]
    have : (1209600 : Nat) = 4 * 302400 := by norm_num
    rw [this, Nat.mul_div_mul_right _ _ (by norm_num)]
  unfold retarget
  simp only [mulScalar, div256, hu, hu2, U256, shl256, Nat.shiftLeft_eq,
    Nat.shiftRight_eq_div_pow]
  have hz : ¬ (1209600 = 0) := by norm_num
  rw [if_neg hz, ok_bind]
  by_cases h : bits x > 235
  · have h235 : 2 ^ 235 ≤ x := by
      by_contra hlt
      exact absurd (hb.2 (by omega)) (by omega)
    have := he h235
    simp only [h, decide_True, if_true]
    rw [pow_one, hd _ (by omega), Nat.mod_eq_of_lt (by omega)]
    congr 1
    omega
  · have h235 : x < 2 ^ 235 := hb.1 (by omega)
    simp only [h, decide_False]
    simp only [Bool.false_eq_true, if_false]
    rw [hd _ h235]

theorem limitAdjustmentStep_bounds (params : Params) (x : Int)
    (hT : 0 < params.nPowTargetTimespan) :
    0 ≤ limitAdjustmentStep params x ∧
      limitAdjustmentStep params x ≤ params.nPowTargetTimespan * 4 := by
  simp only [limitAdjustmentStep, Int.tdiv_eq_ediv (le_of_lt hT) (by norm_num : (0 : Int) ≤ 4)]
  split_ifs <;> omega

/-- The scaling of `CalculateNextWorkRequired` in exact arithmetic: when the operand after
the shift is below `2 ^ 235` and the timespan is at most `2 ^ 21` and at most four periods,
neither the product nor the shift back wraps around. -/
theorem retarget_exact (old s : Nat) (ts T : Nat)
    (hs : s = if bits old > 235 then 1 else 0) (hT : 0 < T) (hts : ts ≤ T * 4)
    (hts21 : ts ≤ 2 ^ 21) (hold : old < 2 ^ 236) :
    (old >>> s) * ts < 2 ^ 256 ∧ ((old >>> s) * ts / T) <<< s < 2 ^ 256 ∧
      retarget old (ts : Int) (T : Int) = .ok (((old >>> s) * ts / T) <<< s) := by
  have hb := bits_le_iff old 235 (by omega)
  have hu1 : toU64 (ts : Int) = ts := by simp [toU64]
  have hu2 : toU64 (T : Int) = T := by simp [toU64]
  have hT0 : ¬ (T = 0) := by omega
  have key : ∀ y : Nat, y < 2 ^ 235 → y * ts < 2 ^ 256 ∧ y * ts / T ≤ y * 4 := by
    intro y hy
    constructor
    · have h1 : y * ts ≤ y * 2 ^ 21 := Nat.mul_le_mul_left _ hts21
      have h2 : y * 2 ^ 21 < 2 ^ 235 * 2 ^ 21 := Nat.mul_lt_mul_of_pos_right hy (by norm_num)
      have h3 : (2 : Nat) ^ 235 * 2 ^ 21 = 2 ^ 256 := by norm_num
      omega
    · apply Nat.div_le_of_le_mul
      calc y * ts ≤ y * (T * 4) := Nat.mul_le_mul_left _ hts
        _ = T * (y * 4) := by ring
  unfold retarget
  simp only [mulScalar, div256, hu1, hu2, U256, shl256, hT0, if_false, ok_bind]
  by_cases h : bits old > 235
  · have hs1 : s = 1 := by rw [hs, if_pos h]
    subst hs1
    have hy : old >>> 1 < 2 ^ 235 := by
      rw [Nat.shiftRight_eq_div_pow, pow_one]; omega
    obtain ⟨hprod, hq⟩ := key _ hy
    have hq2 : ((old >>> 1) * ts / T) <<< 1 < 2 ^ 256 := by
      rw [Nat.shiftLeft_eq, pow_one]; omega
    refine ⟨hprod, hq2, ?_⟩
    simp only [h, decide_True, if_true]
    rw [Nat.mod_eq_of_lt hprod, Nat.mod_eq_of_lt hq2]
  · have hs0 : s = 0 := by rw [hs, if_neg h]
    subst hs0
    have hy : old < 2 ^ 235 := hb.1 (by omega)
    obtain ⟨hprod, hq⟩ := key _ hy
    rw [Nat.shiftRight_zero, Nat.shiftLeft_zero]
    refine ⟨hprod, by omega, ?_⟩
    simp only [h, decide_False, Bool.false_eq_true, if_false]
    rw [Nat.mod_eq_of_lt hprod]

/-- A decoded encoding is zero only for the value zero. -/
theorem decoded_pos_iff (x : Nat) (hx : x < 2 ^ 256) :
    0 < (SetCompact (GetCompact x)).value ↔ x ≠ 0 := by
  obtain ⟨hle, -, -⟩ := SetCompact_GetCompact x hx
  rcases decode_encode_form x hx with ⟨-, hv⟩ | ⟨k, c, hk3, hk32, hc16, hc24, hv, -⟩
  · rw [hv]; omega
  · have hpos : 0 < (SetCompact (GetCompact x)).value := by
      rw [hv]
      exact Nat.mul_pos (by omega) (Nat.two_pow_pos _)
    constructor
    · intro _; omega
    · intro _; exact hpos

theorem retarget_ok (old : Nat) (ts T : Int) (hT : 0 < T) :
    ∃ v, retarget old ts T = .ok v := by
  have hu : toU64 T ≠ 0 := by
    have := toU64_of_nonneg T (le_of_lt hT)
    intro h0
    rw [h0] at this
    simp at this
    omega
  unfold retarget
  simp only [div256, hu, if_false, ok_bind]
  exact ⟨_, rfl⟩

/-! ## The claims on the legacy scaling and on the verifier -/

/-- C14. Four-fold cap on a difficulty increase: with a period of 1209600 seconds (and any
spacing, 600 seconds included), for a previous node outside the fork window whose bits are
the encoding of a `powLimit` of bit length at most 236, an actual timespan of an eighth of
the period makes `CalculateNextWorkRequired` return the same bits as an actual timespan of
a quarter of the period, and these bits are the encoding of the decoded previous target
divided by 4 (rounded down). -/
theorem calculateNextWork_fourfold (params : Params) (last : CBlockIndex) (prev : BlockPtr)
    (hT : params.nPowTargetTimespan = 1209600)
    (hb : bits (UintToArith256 params.powLimit) ≤ 236)
    (hw : inForkWindow params last.nHeight = false)
    (hbits : last.nBits = GetCompact (UintToArith256 params.powLimit)) :
    CalculateNextWorkRequired (last :: prev)
        (last.GetBlockTime - params.nPowTargetTimespan / 8) params =
      CalculateNextWorkRequired (last :: prev)
        (last.GetBlockTime - params.nPowTargetTimespan / 4) params ∧
    CalculateNextWorkRequired (last :: prev)
        (last.GetBlockTime - params.nPowTargetTimespan / 8) params =
      .ok (GetCompact ((SetCompact last.nBits).value / 4)) := by
  have ht := UintToArith256_lt params.powLimit
  have ht236 : UintToArith256 params.powLimit < 2 ^ 236 := (bits_le_iff _ 236 ht).1 hb
  obtain ⟨hle, -, -⟩ := SetCompact_GetCompact _ ht
  have hstep : ∀ x : Int, x = 151200 ∨ x = 302400 →
      limitAdjustmentStep params (last.GetBlockTime - (last.GetBlockTime - x)) = 302400 := by
    intro x hx
    have : last.GetBlockTime - (last.GetBlockTime - x) = x := by omega
    rw [this]
    simp only [limitAdjustmentStep, hT]
    rcases hx with h | h <;> subst h <;> decide
  have h8 : params.nPowTargetTimespan / 8 = 151200 := by rw [hT]; decide
  have h4 : params.nPowTargetTimespan / 4 = 302400 := by rw [hT]; decide
  have hcalc : ∀ x : Int, x = 151200 ∨ x = 302400 →
      CalculateNextWorkRequired (last :: prev) (last.GetBlockTime - x) params =
        .ok (GetCompact ((SetCompact last.nBits).value / 4)) := by
    intro x hx
    unfold CalculateNextWorkRequired
    simp only [deref, ok_bind, hw, Bool.false_eq_true, if_false, hstep x hx]
    rw [hT, hbits, retarget_quarter _ (by omega) (decoded_mod8 _ ht), ok_bind]
    have hnc : ¬ ((SetCompact (GetCompact (UintToArith256 params.powLimit))).value / 4 >
        UintToArith256 params.powLimit) := by omega
    simp only [hnc, if_false]
  rw [h8, h4, hcalc _ (Or.inl rfl), hcalc _ (Or.inr rfl)]
  exact ⟨rfl, rfl⟩

/-- Witness of C14: the limit `2 ^ 236 - 1`, whose encoding `0x1e0fffff` decodes to
`0xfffff * 2 ^ 216`; a quarter of it encodes as `0x1e03ffff`. -/
theorem calculateNextWork_fourfold_witness :
    GetCompact ((SetCompact 0x1e0fffff).value / 4) = 0x1e03ffff ∧
    CalculateNextWorkRequired [⟨4031, 2000000000, 0x1e0fffff, 0⟩]
        ((2000000000 : Int) - sampleParams.nPowTargetTimespan / 8) sampleParams =
      CalculateNextWorkRequired [⟨4031, 2000000000, 0x1e0fffff, 0⟩]
        ((2000000000 : Int) - sampleParams.nPowTargetTimespan / 4) sampleParams ∧
    CalculateNextWorkRequired [⟨4031, 2000000000, 0x1e0fffff, 0⟩]
        ((2000000000 : Int) - sampleParams.nPowTargetTimespan / 8) sampleParams =
      .ok (GetCompact ((SetCompact 0x1e0fffff).value / 4)) :=
  ⟨by decide, calculateNextWork_fourfold sampleParams ⟨4031, 2000000000, 0x1e0fffff, 0⟩ []
    rfl (by decide) (by decide) (by decide)⟩

/-- C15, counterexample. Acceptance is not equivalent to `hash ≤ decode(bits)`: each hash
below is at most the decoded target and is rejected all the same. With the limit
`2 ^ 236 - 1`, `0x207fffff` decodes to a target above the limit and `0x04923456` is flagged
negative; with the limit `2 ^ 255 - 1`, `0x21010001` is flagged overflow while the value
kept in 256 bits, `2 ^ 240`, is below the limit; `0` decodes to the target 0, which the
hash 0 does not exceed. -/
theorem checkProofOfWork_not_only_hash :
    (UintToArith256 1 ≤ (SetCompact 0x207fffff).value ∧
      CheckProofOfWork 1 0x207fffff sampleParams = false) ∧
    (UintToArith256 1 ≤ (SetCompact 0x04923456).value ∧
      CheckProofOfWork 1 0x04923456 sampleParams = false) ∧
    (UintToArith256 1 ≤ (SetCompact 0x21010001).value ∧
      (SetCompact 0x21010001).value ≤ UintToArith256 easyParams.powLimit ∧
      CheckProofOfWork 1 0x21010001 easyParams = false) ∧
    (UintToArith256 0 ≤ (SetCompact 0).value ∧ CheckProofOfWork 0 0 sampleParams = false) := by
  decide

/-- C15, amended. For bits whose decoded target passes the range check (flagged neither
negative nor overflow, non-zero, at most `powLimit`) `CheckProofOfWork` returns true exactly
when the 256-bit value of the hash is at most the decoded target, so the accept set is the
hashes in `[0, target]`; for every other bits it returns false for every hash. -/
theorem checkProofOfWork_acceptSet (nBits : Nat) (params : Params) :
    ((SetCompact nBits).fNegative = false ∧ (SetCompact nBits).fOverflow = false ∧
        (SetCompact nBits).value ≠ 0 ∧
        (SetCompact nBits).value ≤ UintToArith256 params.powLimit →
      ∀ hash, CheckProofOfWork hash nBits params = true ↔
        UintToArith256 hash ≤ (SetCompact nBits).value) ∧
    (¬ ((SetCompact nBits).fNegative = false ∧ (SetCompact nBits).fOverflow = false ∧
        (SetCompact nBits).value ≠ 0 ∧
        (SetCompact nBits).value ≤ UintToArith256 params.powLimit) →
      ∀ hash, CheckProofOfWork hash nBits params = false) := by
  unfold CheckProofOfWork
  generalize SetCompact nBits = d
  obtain ⟨v, n, o⟩ := d
  constructor
  · rintro ⟨h1, h2, h3, h4⟩ hash
    simp only at h1 h2 h3 h4
    subst h1 h2
    have h5 : ¬ (v > UintToArith256 params.powLimit) := by omega
    simp [h3, h5]
  · intro hn hash
    cases n <;> cases o <;> simp at hn ⊢
    intro h0 h1
    exact absurd (hn h0) (by omega)

/-- Witness of C15 as amended: the bits `0x1e0fffff` of the limit `2 ^ 236 - 1` pass the
range check, and the bits `0x207fffff` do not. -/
theorem checkProofOfWork_acceptSet_witness :
    (∀ hash, CheckProofOfWork hash 0x1e0fffff sampleParams = true ↔
      UintToArith256 hash ≤ (SetCompact 0x1e0fffff).value) ∧
    (∀ hash, CheckProofOfWork hash 0x207fffff sampleParams = false) :=
  ⟨(checkProofOfWork_acceptSet 0x1e0fffff sampleParams).1 (by decide),
   (checkProofOfWork_acceptSet 0x207fffff sampleParams).2 (by decide)⟩

/-- C16, counterexample. The returned target can be 0. With the period 1209600 a previous
target of 1 (`0x01010000`) and a timespan of a quarter of the period give
`floor(1 * 302400 / 1209600) = 0`. With the period `2 ^ 20` a previous target of `2 ^ 235`
(`0x1e080000`) and a timespan of four periods give the product `2 ^ 234 * 2 ^ 22`, which
wraps around to 0. With the period 1 a previous target of `2 ^ 254` (`0x20400000`) and a
timespan of 4 give the quotient `2 ^ 255`, which the shift back moves out of the 256 bits.
In each case the period is positive, the node is outside the fork window, the previous
target is positive and at most `powLimit`, and the returned bits are 0, which decode to 0. -/
theorem calculateNextWork_zero :
    (SetCompact 0).value = 0 ∧
    (0 < sampleParams.nPowTargetTimespan ∧ inForkWindow sampleParams 4031 = false ∧
      (SetCompact 0x01010000).value = 1 ∧
      (SetCompact 0x01010000).value ≤ UintToArith256 sampleParams.powLimit ∧
      CalculateNextWorkRequired [⟨4031, 2000000000, 0x01010000, 0⟩] (2000000000 - 302400)
        sampleParams = .ok 0) ∧
    (0 < longPeriodParams.nPowTargetTimespan ∧ inForkWindow longPeriodParams 4031 = false ∧
      (SetCompact 0x1e080000).value = 2 ^ 235 ∧
      (SetCompact 0x1e080000).value ≤ UintToArith256 longPeriodParams.powLimit ∧
      CalculateNextWorkRequired [⟨4031, 2000000000, 0x1e080000, 0⟩] (2000000000 - 4194304)
        longPeriodParams = .ok 0) ∧
    (0 < unitPeriodParams.nPowTargetTimespan ∧ inForkWindow unitPeriodParams 4031 = false ∧
      (SetCompact 0x20400000).value = 2 ^ 254 ∧
      (SetCompact 0x20400000).value ≤ UintToArith256 unitPeriodParams.powLimit ∧
      CalculateNextWorkRequired [⟨4031, 2000000000, 0x20400000, 0⟩] (2000000000 - 4)
        unitPeriodParams = .ok 0) :=
  ⟨by decide, ⟨by decide, by decide, by decide, by decide, rfl⟩,
    ⟨by decide, by decide, by decide, by decide, rfl⟩,
    ⟨by decide, by decide, by decide, by decide, rfl⟩⟩

/-- C16, amended. With a positive period, for a previous node outside the fork window
whose bits decode to a target `t` with `0 < t ≤ powLimit` and for every first-block time,
`CalculateNextWorkRequired` returns bits, and they decode to a target above 0 exactly when
the value held before the comparison with `powLimit` is not 0. This is the case whenever
the period is at most `2 ^ 19` seconds, `powLimit` is below `2 ^ 236` and the product
`(t >> s) * ts` of the shifted target and the clamped timespan is at least the period. -/
theorem calculateNextWork_positive (params : Params) (last : CBlockIndex) (prev : BlockPtr)
    (f : Int) (hT : 0 < params.nPowTargetTimespan)
    (hw : inForkWindow params last.nHeight = false)
    (ht0 : 0 < (SetCompact last.nBits).value)
    (htl : (SetCompact last.nBits).value ≤ UintToArith256 params.powLimit) :
    ∃ v nBits,
      retarget (SetCompact last.nBits).value
        (limitAdjustmentStep params (last.GetBlockTime - f)) params.nPowTargetTimespan =
          .ok v ∧
      CalculateNextWorkRequired (last :: prev) f params = .ok nBits ∧
      (0 < (SetCompact nBits).value ↔ v ≠ 0) ∧
      (params.nPowTargetTimespan * 4 ≤ 2 ^ 21 → UintToArith256 params.powLimit < 2 ^ 236 →
        params.nPowTargetTimespan.toNat ≤
          ((SetCompact last.nBits).value >>> specShift (SetCompact last.nBits).value) *
            (limitAdjustmentStep params (last.GetBlockTime - f)).toNat →
        0 < (SetCompact nBits).value) := by
  obtain ⟨v, hv⟩ := retarget_ok (SetCompact last.nBits).value
    (limitAdjustmentStep params (last.GetBlockTime - f)) params.nPowTargetTimespan hT
  have hlim := UintToArith256_lt params.powLimit
  have hcalc : CalculateNextWorkRequired (last :: prev) f params =
      .ok (GetCompact (if v > UintToArith256 params.powLimit then
        UintToArith256 params.powLimit else v)) := by
    unfold CalculateNextWorkRequired
    simp only [deref, ok_bind, hw, Bool.false_eq_true, if_false]
    rw [hv, ok_bind]
  have hiff : 0 < (SetCompact (GetCompact (if v > UintToArith256 params.powLimit then
      UintToArith256 params.powLimit else v))).value ↔ v ≠ 0 := by
    rw [decoded_pos_iff _ (by split_ifs <;> omega)]
    split_ifs <;> omega
  refine ⟨v, _, hv, hcalc, hiff, ?_⟩
  intro hT4 hpl hprod
  rw [hiff]
  obtain ⟨hts0, hts4⟩ := limitAdjustmentStep_bounds params (last.GetBlockTime - f) hT
  have hex := retarget_exact (SetCompact last.nBits).value
    (specShift (SetCompact last.nBits).value)
    (limitAdjustmentStep params (last.GetBlockTime - f)).toNat
    params.nPowTargetTimespan.toNat rfl (by omega) (by omega) (by omega) (by omega)
  rw [Int.toNat_of_nonneg hts0, Int.toNat_of_nonneg (le_of_lt hT)] at hex
  obtain ⟨-, -, h3⟩ := hex
  rw [hv] at h3
  cases h3
  have hq : 1 ≤ ((SetCompact last.nBits).value >>> specShift (SetCompact last.nBits).value) *
      (limitAdjustmentStep params (last.GetBlockTime - f)).toNat /
        params.nPowTargetTimespan.toNat := by
    rw [Nat.le_div_iff_mul_le (by omega)]
    simpa using hprod
  rw [Nat.shiftLeft_eq]
  exact Nat.ne_of_gt (Nat.mul_pos (by omega) (Nat.two_pow_pos _))

/-- Witness of C16 as amended: the period 302400, the limit `2 ^ 236 - 1`, a previous node
at the limit and a timespan of a quarter of the period; the call returns `0x1e03ffff`. -/
theorem calculateNextWork_positive_witness :
    CalculateNextWorkRequired [⟨4031, 2000000000, 0x1e0fffff, 0⟩] (2000000000 - 75600)
        shiftParams = .ok 0x1e03ffff ∧
    ∃ v nBits,
      retarget (SetCompact 0x1e0fffff).value
        (limitAdjustmentStep shiftParams
          ((⟨4031, 2000000000, 0x1e0fffff, 0⟩ : CBlockIndex).GetBlockTime -
            (2000000000 - 75600))) shiftParams.nPowTargetTimespan = .ok v ∧
      CalculateNextWorkRequired [⟨4031, 2000000000, 0x1e0fffff, 0⟩] (2000000000 - 75600)
        shiftParams = .ok nBits ∧
      (0 < (SetCompact nBits).value ↔ v ≠ 0) ∧
      (shiftParams.nPowTargetTimespan * 4 ≤ 2 ^ 21 →
        UintToArith256 shiftParams.powLimit < 2 ^ 236 →
        shiftParams.nPowTargetTimespan.toNat ≤
          ((SetCompact 0x1e0fffff).value >>> specShift (SetCompact 0x1e0fffff).value) *
            (limitAdjustmentStep shiftParams
              ((⟨4031, 2000000000, 0x1e0fffff, 0⟩ : CBlockIndex).GetBlockTime -
                (2000000000 - 75600))).toNat →
        0 < (SetCompact nBits).value) :=
  ⟨rfl, calculateNextWork_positive shiftParams ⟨4031, 2000000000, 0x1e0fffff, 0⟩ []
    (2000000000 - 75600) (by decide) (by decide) (by decide) (by decide)⟩

/-- C17, counterexample. The shift guard does not prevent wraparound for every params. With
the period 1209600 and the limit `2 ^ 236 - 1`, a previous node at the limit (`0x1e0fffff`,
bit length 236, shift 1) and a timespan of four periods give a product of at least
`2 ^ 256`; the value held before the comparison differs from the exact integer and the
call returns `0x1e08850c` where the exact value, above the limit, would give `0x1e0fffff`.
With the period 302400 and the limit `2 ^ 255 - 1`, a previous node at `0x207fffff` (bit
length 255, shifted by one bit only) and a timespan of one period wrap around as well. -/
theorem calculateNextWork_wraps :
    (0 < sampleParams.nPowTargetTimespan ∧ inForkWindow sampleParams 4031 = false ∧
      (SetCompact 0x1e0fffff).value ≤ UintToArith256 sampleParams.powLimit ∧
      limitAdjustmentStep sampleParams (2000000000 - (2000000000 - 4838400)) = 4838400 ∧
      specShift (SetCompact 0x1e0fffff).value = 1 ∧
      2 ^ 256 ≤ ((SetCompact 0x1e0fffff).value >>> 1) * 4838400 ∧
      retarget (SetCompact 0x1e0fffff).value 4838400 sampleParams.nPowTargetTimespan ≠
        .ok (specScaled (SetCompact 0x1e0fffff).value 4838400
          sampleParams.nPowTargetTimespan) ∧
      specScaled (SetCompact 0x1e0fffff).value 4838400 sampleParams.nPowTargetTimespan >
        UintToArith256 sampleParams.powLimit ∧
      GetCompact (UintToArith256 sampleParams.powLimit) = 0x1e0fffff ∧
      CalculateNextWorkRequired [⟨4031, 2000000000, 0x1e0fffff, 0⟩] (2000000000 - 4838400)
        sampleParams = .ok 0x1e08850c) ∧
    (0 < wideLimitParams.nPowTargetTimespan ∧ inForkWindow wideLimitParams 4031 = false ∧
      (SetCompact 0x207fffff).value ≤ UintToArith256 wideLimitParams.powLimit ∧
      limitAdjustmentStep wideLimitParams (2000000000 - (2000000000 - 302400)) = 302400 ∧
      specShift (SetCompact 0x207fffff).value = 1 ∧
      2 ^ 256 ≤ ((SetCompact 0x207fffff).value >>> 1) * 302400 ∧
      retarget (SetCompact 0x207fffff).value 302400 wideLimitParams.nPowTargetTimespan ≠
        .ok (specScaled (SetCompact 0x207fffff).value 302400
          wideLimitParams.nPowTargetTimespan)) := by
  refine ⟨⟨by decide, by decide, by decide, by decide, by decide, by decide, by decide,
    by decide, by decide, rfl⟩, by decide, by decide, by decide, by decide, by decide,
    by decide, by decide⟩

/-- C17, amended. The shift guard makes the legacy scaling free of wraparound when the
period is at most `2 ^ 19` seconds and `powLimit` is below `2 ^ 236`: for such params with
a positive period and a previous node outside the fork window whose decoded target `old`
is at most `powLimit`, with `s` the shift and `ts` the clamped timespan, the product
`(old >> s) * ts` is below `2 ^ 256`, the value held before the comparison with `powLimit`
is the exact integer `floor(((old >> s) * ts) / nPowTargetTimespan) << s`, itself below
`2 ^ 256`, and the bits returned are the encoding of the smaller of it and `powLimit`. -/
theorem calculateNextWork_exact (params : Params) (last : CBlockIndex) (prev : BlockPtr)
    (f : Int) (hT : 0 < params.nPowTargetTimespan)
    (hT4 : params.nPowTargetTimespan * 4 ≤ 2 ^ 21)
    (hpl : UintToArith256 params.powLimit < 2 ^ 236)
    (hw : inForkWindow params last.nHeight = false)
    (hold : (SetCompact last.nBits).value ≤ UintToArith256 params.powLimit) :
    ((SetCompact last.nBits).value >>> specShift (SetCompact last.nBits).value) *
        (limitAdjustmentStep params (last.GetBlockTime - f)).toNat < 2 ^ 256 ∧
      specScaled (SetCompact last.nBits).value
        (limitAdjustmentStep params (last.GetBlockTime - f)) params.nPowTargetTimespan <
          2 ^ 256 ∧
      retarget (SetCompact last.nBits).value
          (limitAdjustmentStep params (last.GetBlockTime - f)) params.nPowTargetTimespan =
        .ok (specScaled (SetCompact last.nBits).value
          (limitAdjustmentStep params (last.GetBlockTime - f)) params.nPowTargetTimespan) ∧
      CalculateNextWorkRequired (last :: prev) f params =
        .ok (GetCompact
          (if specScaled (SetCompact last.nBits).value
              (limitAdjustmentStep params (last.GetBlockTime - f)) params.nPowTargetTimespan >
                UintToArith256 params.powLimit then UintToArith256 params.powLimit
            else specScaled (SetCompact last.nBits).value
              (limitAdjustmentStep params (last.GetBlockTime - f))
              params.nPowTargetTimespan)) := by
  obtain ⟨hts0, hts4⟩ := limitAdjustmentStep_bounds params (last.GetBlockTime - f) hT
  have hex := retarget_exact (SetCompact last.nBits).value
    (specShift (SetCompact last.nBits).value)
    (limitAdjustmentStep params (last.GetBlockTime - f)).toNat
    params.nPowTargetTimespan.toNat rfl (by omega) (by omega) (by omega) (by omega)
  rw [Int.toNat_of_nonneg hts0, Int.toNat_of_nonneg (le_of_lt hT)] at hex
  obtain ⟨h1, h2, h3⟩ := hex
  refine ⟨h1, h2, h3, ?_⟩
  unfold CalculateNextWorkRequired
  simp only [deref, ok_bind, hw, Bool.false_eq_true, if_false]
  rw [h3, ok_bind]
  rfl

/-- Witness of C17 as amended: the period 302400, the limit `2 ^ 236 - 1`, a previous node at
the limit and a timespan of four periods. -/
theorem calculateNextWork_exact_witness :
    ((SetCompact 0x1e0fffff).value >>> specShift (SetCompact 0x1e0fffff).value) *
        (limitAdjustmentStep shiftParams
          ((⟨4031, 2000000000, 0x1e0fffff, 0⟩ : CBlockIndex).GetBlockTime -
            (2000000000 - 1209600))).toNat < 2 ^ 256 ∧
      specScaled (SetCompact 0x1e0fffff).value
        (limitAdjustmentStep shiftParams
          ((⟨4031, 2000000000, 0x1e0fffff, 0⟩ : CBlockIndex).GetBlockTime -
            (2000000000 - 1209600))) shiftParams.nPowTargetTimespan < 2 ^ 256 ∧
      retarget (SetCompact 0x1e0fffff).value
          (limitAdjustmentStep shiftParams
            ((⟨4031, 2000000000, 0x1e0fffff, 0⟩ : CBlockIndex).GetBlockTime -
              (2000000000 - 1209600))) shiftParams.nPowTargetTimespan =
        .ok (specScaled (SetCompact 0x1e0fffff).value
          (limitAdjustmentStep shiftParams
            ((⟨4031, 2000000000, 0x1e0fffff, 0⟩ : CBlockIndex).GetBlockTime -
              (2000000000 - 1209600))) shiftParams.nPowTargetTimespan) ∧
      CalculateNextWorkRequired [⟨4031, 2000000000, 0x1e0fffff, 0⟩] (2000000000 - 1209600)
          shiftParams =
        .ok (GetCompact
          (if specScaled (SetCompact 0x1e0fffff).value
              (limitAdjustmentStep shiftParams
                ((⟨4031, 2000000000, 0x1e0fffff, 0⟩ : CBlockIndex).GetBlockTime -
                  (2000000000 - 1209600))) shiftParams.nPowTargetTimespan >
                UintToArith256 shiftParams.powLimit then UintToArith256 shiftParams.powLimit
            else specScaled (SetCompact 0x1e0fffff).value
              (limitAdjustmentStep shiftParams
                ((⟨4031, 2000000000, 0x1e0fffff, 0⟩ : CBlockIndex).GetBlockTime -
                  (2000000000 - 1209600))) shiftParams.nPowTargetTimespan)) :=
  calculateNextWork_exact shiftParams ⟨4031, 2000000000, 0x1e0fffff, 0⟩ [] (2000000000 - 1209600)
    (by decide) (by decide) (by decide) (by decide) (by decide)

/-! ## The claims on the historical constant and on the window of the continuous algorithm -/

/-- C18. In the emergency-recalibration range the returned bits are the re-encoded
constant: with retargeting enabled, the test-network rule off, the continuous algorithm
inactive and an interval that is not zero, for a previous node of height `h` with
`(h + 1) mod interval ≠ 0`, outside the
fork window and with `1506585 ≤ h ≤ LCHHeight + LCHInitBlockCount + interval`,
`GetNextWorkRequired` returns the encoding of the decoded literal `0x1aa8946b`, which is
`0x1a28946b`, whatever the bits and times. The literal has bit 23 (the sign flag) set;
decoding drops it, so the returned bits differ from the literal and decode without the
negative flag. -/
theorem getNextWorkRequired_recalibration (params : Params) (last : CBlockIndex)
    (prev : BlockPtr) (pblock : CBlockHeader)
    (hnr : params.fPowNoRetargeting = false)
    (hmin : params.fPowAllowMinDifficultyBlocks = false)
    (hdaa : IsDAAEnabled params (last :: prev) = false)
    (hI : params.DifficultyAdjustmentInterval ≠ 0)
    (hb : (last.nHeight + 1) % params.DifficultyAdjustmentInterval ≠ 0)
    (hw : ¬ (params.LCHHeight ≤ last.nHeight ∧
      last.nHeight ≤ params.LCHHeight + params.LCHInitBlockCount))
    (hr : 1506585 ≤ last.nHeight ∧ last.nHeight ≤
      params.LCHHeight + params.LCHInitBlockCount + params.DifficultyAdjustmentInterval) :
    GetNextWorkRequired (last :: prev) pblock params = .ok 0x1a28946b ∧
      GetCompact (SetCompact 0x1aa8946b).value = 0x1a28946b ∧
      0x1aa8946b &&& 0x00800000 ≠ 0 ∧ (0x1a28946b : Nat) ≠ 0x1aa8946b ∧
      (SetCompact 0x1a28946b).fNegative = false := by
  have hfw := inForkWindow_eq_false params last.nHeight hw
  have hr2 : last.nHeight ≥ 1506585 ∧ last.nHeight ≤
      params.LCHHeight + params.LCHInitBlockCount + params.DifficultyAdjustmentInterval := hr
  have hc : GetCompact (SetCompact 0x1aa8946b).value = 0x1a28946b := by decide
  refine ⟨?_, hc, by decide, by decide, by decide⟩
  rw [getNextWorkRequired_offBoundary params last prev pblock hnr hdaa hI hb]
  simp only [hmin, hfw, hr2, Bool.false_eq_true, if_false, and_self, if_true, hc]

/-- Witness of C18: a node of height 1506600 whose own bits are `0x1b0404cb`. -/
theorem getNextWorkRequired_recalibration_witness :
    GetNextWorkRequired [⟨1506600, 1600000000, 0x1b0404cb, 0⟩] ⟨1600000150⟩ historicalParams =
        .ok 0x1a28946b ∧
      GetCompact (SetCompact 0x1aa8946b).value = 0x1a28946b ∧
      0x1aa8946b &&& 0x00800000 ≠ 0 ∧ (0x1a28946b : Nat) ≠ 0x1aa8946b ∧
      (SetCompact 0x1a28946b).fNegative = false :=
  getNextWorkRequired_recalibration historicalParams ⟨1506600, 1600000000, 0x1b0404cb, 0⟩ []
    ⟨1600000150⟩ rfl rfl rfl (by decide) (by decide) (by decide) (by decide)

/-- Counterexample to C18 as stated, without a condition on the interval: under
`zeroIntervalHistoricalParams` (period 100, spacing 600, interval 0) the node of height
1506600 meets every condition of the claim, `1506601 mod 0 = 1506601` is not 0 and the
height lies in the range from 1506585 to 1600000, and the call does not return
`0x1a28946b`: line 36 divides by zero. -/
theorem getNextWorkRequired_recalibration_zero_interval :
    zeroIntervalHistoricalParams.fPowNoRetargeting = false ∧
    zeroIntervalHistoricalParams.fPowAllowMinDifficultyBlocks = false ∧
    IsDAAEnabled zeroIntervalHistoricalParams [⟨1506600, 1600000000, 0x1b0404cb, 0⟩] = false ∧
    zeroIntervalHistoricalParams.DifficultyAdjustmentInterval = 0 ∧
    ((1506600 : Int) + 1) % zeroIntervalHistoricalParams.DifficultyAdjustmentInterval ≠ 0 ∧
    ¬ (zeroIntervalHistoricalParams.LCHHeight ≤ (1506600 : Int) ∧ (1506600 : Int) ≤
      zeroIntervalHistoricalParams.LCHHeight + zeroIntervalHistoricalParams.LCHInitBlockCount) ∧
    (1506585 ≤ (1506600 : Int) ∧ (1506600 : Int) ≤
      zeroIntervalHistoricalParams.LCHHeight + zeroIntervalHistoricalParams.LCHInitBlockCount +
        zeroIntervalHistoricalParams.DifficultyAdjustmentInterval) ∧
    GetNextWorkRequired [⟨1506600, 1600000000, 0x1b0404cb, 0⟩] ⟨1600000150⟩
      zeroIntervalHistoricalParams = .error .divByZero ∧
    GetNextWorkRequired [⟨1506600, 1600000000, 0x1b0404cb, 0⟩] ⟨1600000150⟩
      zeroIntervalHistoricalParams ≠ .ok 0x1a28946b :=
  ⟨rfl, rfl, rfl, by decide, by decide, by decide, by decide, rfl, by decide⟩

/-- C19. Tie-breaking of the median selection is fixed by the sorting network: for a node of
height at least 3 with parent `p` and grandparent `g` whose times satisfy
`g.nTime ≤ p.nTime ≤ node.nTime` (equal times included), none of the three
compare-and-swap steps swaps and `GetSuitableBlock` returns exactly the pointer to `p`. -/
theorem getSuitableBlock_ordered (node p g : CBlockIndex) (rest : BlockPtr)
    (h : node.nHeight ≥ 3) (hgp : g.nTime ≤ p.nTime) (hpn : p.nTime ≤ node.nTime) :
    swapIfLater (g :: rest) (node :: p :: g :: rest) =
        .ok (g :: rest, node :: p :: g :: rest) ∧
      swapIfLater (g :: rest) (p :: g :: rest) = .ok (g :: rest, p :: g :: rest) ∧
      swapIfLater (p :: g :: rest) (node :: p :: g :: rest) =
        .ok (p :: g :: rest, node :: p :: g :: rest) ∧
      GetSuitableBlock (node :: p :: g :: rest) = .ok (p :: g :: rest) := by
  have h3 : ¬ ¬ (node.nHeight ≥ 3) := not_not.2 h
  have h1 : ¬ (g.nTime > node.nTime) := by omega
  have h2 : ¬ (g.nTime > p.nTime) := by omega
  have h4 : ¬ (p.nTime > node.nTime) := by omega
  simp only [GetSuitableBlock, deref, pprev, ok_bind, h3, if_false, swapIfLater, h1, h2, h4,
    and_self]

/-- Witness of C19: the three times are equal. -/
theorem getSuitableBlock_ordered_witness :
    swapIfLater [⟨1, 7, 0, 0⟩, ⟨0, 7, 0, 0⟩] [⟨3, 7, 0, 0⟩, ⟨2, 7, 0, 0⟩, ⟨1, 7, 0, 0⟩, ⟨0, 7, 0, 0⟩] =
        .ok ([⟨1, 7, 0, 0⟩, ⟨0, 7, 0, 0⟩],
          [⟨3, 7, 0, 0⟩, ⟨2, 7, 0, 0⟩, ⟨1, 7, 0, 0⟩, ⟨0, 7, 0, 0⟩]) ∧
      swapIfLater [⟨1, 7, 0, 0⟩, ⟨0, 7, 0, 0⟩] [⟨2, 7, 0, 0⟩, ⟨1, 7, 0, 0⟩, ⟨0, 7, 0, 0⟩] =
        .ok ([⟨1, 7, 0, 0⟩, ⟨0, 7, 0, 0⟩], [⟨2, 7, 0, 0⟩, ⟨1, 7, 0, 0⟩, ⟨0, 7, 0, 0⟩]) ∧
      swapIfLater [⟨2, 7, 0, 0⟩, ⟨1, 7, 0, 0⟩, ⟨0, 7, 0, 0⟩]
          [⟨3, 7, 0, 0⟩, ⟨2, 7, 0, 0⟩, ⟨1, 7, 0, 0⟩, ⟨0, 7, 0, 0⟩] =
        .ok ([⟨2, 7, 0, 0⟩, ⟨1, 7, 0, 0⟩, ⟨0, 7, 0, 0⟩],
          [⟨3, 7, 0, 0⟩, ⟨2, 7, 0, 0⟩, ⟨1, 7, 0, 0⟩, ⟨0, 7, 0, 0⟩]) ∧
      GetSuitableBlock [⟨3, 7, 0, 0⟩, ⟨2, 7, 0, 0⟩, ⟨1, 7, 0, 0⟩, ⟨0, 7, 0, 0⟩] =
        .ok [⟨2, 7, 0, 0⟩, ⟨1, 7, 0, 0⟩, ⟨0, 7, 0, 0⟩] :=
  getSuitableBlock_ordered ⟨3, 7, 0, 0⟩ ⟨2, 7, 0, 0⟩ ⟨1, 7, 0, 0⟩ [⟨0, 7, 0, 0⟩]
    (by decide) (by decide) (by decide)

theorem div256_ne_assertFail (x d : Nat) : div256 x d ≠ .error .assertFail := by
  unfold div256
  split_ifs <;> simp

end Pow
